import Mathlib

/-!
Verification of the TripBE2 settlement and reconciliation engine.

Shallow embedding of the Python source under src/mainProject/TripApp:
  - services/reconciliation.py   (prepayment application, cross-settlement)
  - graphql/settlement/service.py (recalculate_settlements, settle_by_costs)
  - graphql/expense/service.py   (add_expense, update_expense, delete_expense)
  - graphql/prepayment/service.py (add_prepayment)
  - models.py                    (ledger entities)

Monetary values are modelled as exact rationals; the source's
Decimal.quantize(Decimal("0.01")) (banker's rounding, ROUND_HALF_EVEN) is
modelled by q2 below.  Django querysets ordered by created_date are modelled
by keeping the prepayment store in creation order (created_date is
auto_now_add, so insertion order equals timestamp order); querysets ordered
by expense__created_at are modelled by an explicit sort on the split's
denormalised expense creation time.  A Split record carries the columns of
its select_related Expense (payer id, currency, rate, created_at) next to
its own fields, as the source reads them through split.expense.
-/

/-- Rounding to the nearest integer with ties to the even neighbour, the
ROUND_HALF_EVEN mode used by Decimal.quantize in the source. -/
def rhe (x : ℚ) : ℤ :=
  let n : ℤ := ⌊x⌋
  let f : ℚ := x - n
  if f < 1/2 then n
  else if 1/2 < f then n + 1
  else if n % 2 = 0 then n else n + 1

/-- Quantization to two decimal places, the source's
.quantize(Decimal("0.01")) with the default ROUND_HALF_EVEN mode. -/
def q2 (x : ℚ) : ℚ := (rhe (x * 100) : ℚ) / 100

/-- reconciliation.py _min_positive restricted to two arguments, the only
arity used by the engine: the minimum over the arguments that are > 0.
Every call site guarantees at least one positive argument (the Python
original raises on an empty sequence, which is unreachable there). -/
def minPositive (a b : ℚ) : ℚ :=
  if 0 < a then (if 0 < b then min a b else a) else b

/-- Dictionary get with default 0, over an association list (Python
dict.get(key, ZERO)). -/
def lookupD {K : Type} [DecidableEq K] : List (K × ℚ) → K → ℚ
  | [], _ => 0
  | (k', v) :: rest, k => if k' = k then v else lookupD rest k

/-- Keys of an association list. -/
def keysOf {K : Type} (l : List (K × ℚ)) : List K := l.map Prod.fst

/-- All entries of an association list carrying a given key. -/
def filterKey {K : Type} [DecidableEq K] (l : List (K × ℚ)) (k : K) : List (K × ℚ) :=
  l.filter (fun kv => decide (kv.1 = k))

/-- defaultdict accumulation `d[k] += v`: add to an existing entry in place,
or append a fresh entry at the end (Python dict preserves insertion order). -/
def addAssoc {K : Type} [DecidableEq K] : List (K × ℚ) → K → ℚ → List (K × ℚ)
  | [], k, v => [(k, v)]
  | (k', v') :: rest, k, v =>
    if k' = k then (k', v' + v) :: rest else (k', v') :: addAssoc rest k v

/-- dict assignment `d[k] = v`: overwrite an existing entry, or append. -/
def assocSet {K : Type} [DecidableEq K] : List (K × ℚ) → K → ℚ → List (K × ℚ)
  | [], k, v => [(k, v)]
  | (k', v') :: rest, k, v =>
    if k' = k then (k', v) :: rest else (k', v') :: assocSet rest k v

/-- Insertion into a list sorted by a natural-number key. -/
def insertByKey {α : Type} (key : α → ℕ) (x : α) : List α → List α
  | [] => [x]
  | y :: ys => if key x < key y then x :: y :: ys else y :: insertByKey key x ys

/-- Sorting by a natural-number key; models a queryset ORDER BY clause. -/
def sortByKey {α : Type} (key : α → ℕ) (l : List α) : List α :=
  l.foldr (insertByKey key) []

/-- A rational that is a whole number of cents (a two-decimal-place amount,
the declared precision of every monetary column in models.py). -/
def isCent (x : ℚ) : Prop := ∃ n : ℤ, x = (n : ℚ) / 100

/-- Python str.upper() over the character data (the source only ever
uppercases ASCII currency codes and direction strings; String.toUpper itself
is opaque to the kernel, so the embedding maps Char.toUpper over the
character data directly). -/
def upperStr (s : String) : String := ⟨s.data.map Char.toUpper⟩

/-- Python str.strip(): remove leading and trailing whitespace. -/
def trimStr (s : String) : String :=
  ⟨((s.data.dropWhile Char.isWhitespace).reverse.dropWhile Char.isWhitespace).reverse⟩

/-! ## Ledger entities (models.py) -/

/-- models.Participant (trip-scoped; access code and placeholder flag do not
affect the settlement engine and are omitted). -/
structure Participant where
  participantId : ℕ
  userId : Option ℕ
  nickname : String
deriving DecidableEq, Repr

/-- models.Expense. -/
structure Expense where
  expenseId : ℕ
  createdAt : ℕ
  title : String
  description : String
  category : ℤ
  currency : String
  amountCost : ℚ
  amountTrip : ℚ
  rate : ℚ
  payerId : ℕ
deriving DecidableEq, Repr

/-- models.Split, carrying the columns of its select_related Expense
(payerId, expCurrency, expRate, expCreatedAt) as the source reads them
through split.expense. -/
structure Split where
  splitId : ℕ
  expenseId : ℕ
  participantId : ℕ
  payerId : ℕ
  expCurrency : String
  expRate : ℚ
  expCreatedAt : ℕ
  isSettlement : Bool
  amountCost : ℚ
  amountTrip : ℚ
  leftCost : ℚ
  leftTrip : ℚ
deriving DecidableEq, Repr

/-- models.Prepayment.  createdDate is auto_now_add; the prepayment store is
kept in creation order so a filter of the store models the queryset ordered
by created_date. -/
structure Prepayment where
  prepId : ℕ
  fromId : ℕ
  toId : ℕ
  amount : ℚ
  amountLeft : ℚ
  currency : String
  rate : ℚ
  createdDate : ℕ
deriving DecidableEq, Repr

/-- The durable state of one trip: its ledger rows plus the derived
settlement summary tables, and the id/clock counters the database provides. -/
structure TripState where
  tripCurrency : String
  participants : List Participant
  expenses : List Expense
  splits : List Split
  prepayments : List Prepayment
  settTrip : List ((ℕ × ℕ) × ℚ)
  settOther : List ((ℕ × ℕ × String) × ℚ)
  nextExpenseId : ℕ
  nextSplitId : ℕ
  nextPrepId : ℕ
  clock : ℕ
deriving DecidableEq, Repr

/-- services/exchange.py get_exchange_rate (also duplicated in
expense/service.py): the placeholder provider returns 1.000000 for every
currency pair. -/
def getExchangeRate (fromCur toCur : String) : ℚ :=
  if (upperStr fromCur) = (upperStr toCur) then 1 else 1

/-! ## Reconciliation engine (services/reconciliation.py) -/

/-- reconciliation.py _update_is_settlement. -/
def updateIsSettlement (s : Split) : Split :=
  { s with isSettlement := decide (s.leftTrip ≤ 0) && decide (s.leftCost ≤ 0) }

/-- The prepayment filter of apply_prepayments_to_split: directed from the
split's participant to the expense's payer, with positive remaining
balance. -/
def prepMatches (s : Split) (p : Prepayment) : Bool :=
  p.fromId == s.participantId && p.toId == s.payerId && decide (0 < p.amountLeft)

/-- One iteration of the apply_prepayments_to_split loop body (lines 67-104
of reconciliation.py), for a matching prepayment: trip-currency prepayments
settle the trip remainder of any split, a prepayment in the split's own
(non-trip) expense currency settles the cost remainder, any other currency
is skipped. -/
def applyPrepStep (tripCurU : String) (s : Split) (p : Prepayment) : Split × Prepayment :=
  let prepCurU := (upperStr p.currency)
  let expCurU := (upperStr s.expCurrency)
  let rate := s.expRate
  if prepCurU = tripCurU then
    let settleableTrip := minPositive p.amountLeft s.leftTrip
    let p' := { p with amountLeft := p.amountLeft - settleableTrip }
    let settleableCost := if rate ≠ 0 then q2 (settleableTrip / rate) else settleableTrip
    let s' := { s with
      leftTrip := s.leftTrip - settleableTrip,
      leftCost := max 0 (s.leftCost - settleableCost) }
    (s', p')
  else if prepCurU = expCurU ∧ expCurU ≠ tripCurU then
    let settleableCost := minPositive p.amountLeft s.leftCost
    let p' := { p with amountLeft := p.amountLeft - settleableCost }
    let settleableTrip := q2 (settleableCost * rate)
    let s' := { s with
      leftCost := s.leftCost - settleableCost,
      leftTrip := max 0 (s.leftTrip - settleableTrip) }
    (s', p')
  else (s, p)

/-- The apply_prepayments_to_split loop over the trip's prepayment store in
created_date order: non-matching prepayments are untouched, the loop breaks
once the split's trip remainder is exhausted. -/
def applyPrepsGo (tripCurU : String) : Split → List Prepayment → Split × List Prepayment
  | s, [] => (s, [])
  | s, p :: ps =>
    if ¬ prepMatches s p then
      let r := applyPrepsGo tripCurU s ps
      (r.1, p :: r.2)
    else if s.leftTrip ≤ 0 then (s, p :: ps)
    else
      let sp := applyPrepStep tripCurU s p
      let r := applyPrepsGo tripCurU sp.1 ps
      (r.1, sp.2 :: r.2)

/-- reconciliation.py apply_prepayments_to_split: immediate return when the
split's trip remainder is not positive, otherwise run the FIFO loop and
recompute is_settlement. -/
def applyPrepaymentsToSplit (tripCur : String) (s : Split) (preps : List Prepayment) :
    Split × List Prepayment :=
  if s.leftTrip ≤ 0 then (s, preps)
  else
    let r := applyPrepsGo (upperStr tripCur) s preps
    (updateIsSettlement r.1, r.2)

/-- The split filter of apply_prepayment_to_splits (lines 127-136):
participant owes the prepayment's payee, unsettled, positive trip remainder,
and — for a non-trip-currency prepayment — the same expense currency. -/
def splitCandMatches (fromId toId : ℕ) (tripCurU prepCurU : String) (s : Split) : Bool :=
  s.participantId == fromId && s.payerId == toId && s.isSettlement == false &&
    decide (0 < s.leftTrip) &&
    (if prepCurU ≠ tripCurU then (upperStr s.expCurrency) == prepCurU else true)

/-- The candidate splits of apply_prepayment_to_splits, in ascending
expense__created_at order. -/
def prepCandidates (fromId toId : ℕ) (tripCurU prepCurU : String) (splits : List Split) :
    List Split :=
  sortByKey (fun s => s.expCreatedAt) (splits.filter (splitCandMatches fromId toId tripCurU prepCurU))

/-- One iteration of the apply_prepayment_to_splits loop body (lines
148-180): unlike applyPrepStep, a non-trip-currency prepayment is applied to
the cost remainder with no further currency comparison, because the
candidate query already filtered on the expense currency. -/
def prepToSplitsStep (tripCurU : String) (p : Prepayment) (s : Split) : Prepayment × Split :=
  let prepCurU := (upperStr p.currency)
  let rate := s.expRate
  if prepCurU = tripCurU then
    let settleableTrip := minPositive p.amountLeft s.leftTrip
    let p' := { p with amountLeft := p.amountLeft - settleableTrip }
    let settleableCost := if rate ≠ 0 then q2 (settleableTrip / rate) else settleableTrip
    let s' := { s with
      leftTrip := s.leftTrip - settleableTrip,
      leftCost := max 0 (s.leftCost - settleableCost) }
    (p', s')
  else
    let settleableCost := minPositive p.amountLeft s.leftCost
    let p' := { p with amountLeft := p.amountLeft - settleableCost }
    let settleableTrip := q2 (settleableCost * rate)
    let s' := { s with
      leftCost := s.leftCost - settleableCost,
      leftTrip := max 0 (s.leftTrip - settleableTrip) }
    (p', s')

/-- The apply_prepayment_to_splits loop over the ordered candidates, breaking
once the prepayment is exhausted; each touched split's is_settlement is
recomputed inside the loop. -/
def applyPrepToSplitsLoop (tripCurU : String) : Prepayment → List Split → Prepayment × List Split
  | p, [] => (p, [])
  | p, s :: ss =>
    if p.amountLeft ≤ 0 then (p, s :: ss)
    else
      let ps := prepToSplitsStep tripCurU p s
      let r := applyPrepToSplitsLoop tripCurU ps.1 ss
      (r.1, updateIsSettlement ps.2 :: r.2)

/-- Write a batch of updated splits back into the store by primary key. -/
def writeBackSplits (store : List Split) (upd : List Split) : List Split :=
  store.map (fun s =>
    match upd.find? (fun t => t.splitId == s.splitId) with
    | some t => t
    | none => s)

/-- Write one updated split back into the store by primary key. -/
def updateSplitById (store : List Split) (s : Split) : List Split :=
  store.map (fun t => if t.splitId == s.splitId then s else t)

/-- Write one updated prepayment back into the store by primary key. -/
def updatePrepById (store : List Prepayment) (p : Prepayment) : List Prepayment :=
  store.map (fun t => if t.prepId == p.prepId then p else t)

/-- reconciliation.py apply_prepayment_to_splits: immediate return when the
prepayment is exhausted, otherwise drain it FIFO over the candidate splits
and write the touched splits back. -/
def applyPrepaymentToSplits (tripCur : String) (p : Prepayment) (splits : List Split) :
    Prepayment × List Split :=
  if p.amountLeft ≤ 0 then (p, splits)
  else
    let tripCurU := (upperStr tripCur)
    let prepCurU := (upperStr p.currency)
    let cands := prepCandidates p.fromId p.toId tripCurU prepCurU splits
    let r := applyPrepToSplitsLoop tripCurU p cands
    (r.1, writeBackSplits splits r.2)

/-- The opposing-split filter of cross_settle_split (lines 215-229): the new
split's payer owes its participant, unsettled, positive trip remainder, and
the same currency class (trip currency with trip currency, a foreign
currency only with itself). -/
def crossMatches (payerId participantId : ℕ) (tripCurU expCurU : String) (s : Split) : Bool :=
  s.participantId == payerId && s.payerId == participantId && s.isSettlement == false &&
    decide (0 < s.leftTrip) &&
    (if expCurU = tripCurU then (upperStr s.expCurrency) == tripCurU
     else (upperStr s.expCurrency) == expCurU)

/-- One iteration of the cross_settle_split loop body (lines 240-290):
mutual decrement of the new and the opposing split by the minimum of both
remaining amounts in the matching unit. -/
def crossStep (tripCurU expCurU : String) (s opposing : Split) : Split × Split :=
  if expCurU = tripCurU then
    let settleableTrip := minPositive s.leftTrip opposing.leftTrip
    let newCost := if s.expRate ≠ 0 then q2 (settleableTrip / s.expRate) else settleableTrip
    let s' := { s with
      leftTrip := s.leftTrip - settleableTrip,
      leftCost := max 0 (s.leftCost - newCost) }
    let oppCost := if opposing.expRate ≠ 0 then q2 (settleableTrip / opposing.expRate)
                   else settleableTrip
    let opp' := { opposing with
      leftTrip := opposing.leftTrip - settleableTrip,
      leftCost := max 0 (opposing.leftCost - oppCost) }
    (s', opp')
  else
    let settleableCost := minPositive s.leftCost opposing.leftCost
    let newTrip := q2 (settleableCost * s.expRate)
    let s' := { s with
      leftCost := s.leftCost - settleableCost,
      leftTrip := max 0 (s.leftTrip - newTrip) }
    let oppTrip := q2 (settleableCost * opposing.expRate)
    let opp' := { opposing with
      leftCost := opposing.leftCost - settleableCost,
      leftTrip := max 0 (opposing.leftTrip - oppTrip) }
    (s', opp')

/-- The cross_settle_split loop over the ordered opposing splits, breaking
once the new split's trip remainder is exhausted. -/
def crossLoop (tripCurU expCurU : String) : Split → List Split → Split × List Split
  | s, [] => (s, [])
  | s, opp :: opps =>
    if s.leftTrip ≤ 0 then (s, opp :: opps)
    else
      let so := crossStep tripCurU expCurU s opp
      let r := crossLoop tripCurU expCurU so.1 opps
      (r.1, updateIsSettlement so.2 :: r.2)

/-- reconciliation.py cross_settle_split: cross-settle a new split against
existing opposing splits of the reversed direction, oldest expense first,
within the same currency class.  The function is defined in the source but
has no caller. -/
def crossSettleSplit (tripCur : String) (s : Split) (splits : List Split) :
    Split × List Split :=
  if s.leftTrip ≤ 0 then (s, splits)
  else
    let tripCurU := (upperStr tripCur)
    let expCurU := (upperStr s.expCurrency)
    let opposing := sortByKey (fun t => t.expCreatedAt)
      (splits.filter (crossMatches s.payerId s.participantId tripCurU expCurU))
    let r := crossLoop tripCurU expCurU s opposing
    (updateIsSettlement r.1, writeBackSplits splits r.2)

/-! ## Settlement aggregator (graphql/settlement/service.py, recalculate_settlements) -/

/-- The trip-currency valuation of a prepayment's remaining balance used by
recalculate_settlements (line 94): amount_left * rate, quantized. -/
def prepTripContribution (p : Prepayment) : ℚ := q2 (p.amountLeft * p.rate)

/-- One split's contribution to the two debt graphs (lines 56-82): the trip
remainder is a directed participant-to-payer edge in the trip-currency
graph; the other-currency graph receives the trip remainder under the trip
currency for a trip-currency expense, or the cost remainder under the
expense currency otherwise. -/
def splitDebtStep (tripCurU : String)
    (acc : List ((ℕ × ℕ) × ℚ) × List ((ℕ × ℕ × String) × ℚ)) (s : Split) :
    List ((ℕ × ℕ) × ℚ) × List ((ℕ × ℕ × String) × ℚ) :=
  if s.leftTrip ≤ 0 ∧ s.leftCost ≤ 0 then acc
  else if s.participantId = s.payerId then acc
  else
    let acc1 := if 0 < s.leftTrip then
        (addAssoc acc.1 (s.participantId, s.payerId) s.leftTrip, acc.2)
      else acc
    let expCurU := (upperStr s.expCurrency)
    if expCurU = tripCurU then
      if 0 < s.leftTrip then
        (acc1.1, addAssoc acc1.2 (s.participantId, s.payerId, tripCurU) s.leftTrip)
      else acc1
    else
      if 0 < s.leftCost then
        (acc1.1, addAssoc acc1.2 (s.participantId, s.payerId, expCurU) s.leftCost)
      else acc1

/-- One prepayment's contribution to the two debt graphs (lines 85-98): a
reverse edge from the payee back to the prepayer, valued via the captured
rate in the trip graph and at face value in its own currency bucket. -/
def prepDebtStep
    (acc : List ((ℕ × ℕ) × ℚ) × List ((ℕ × ℕ × String) × ℚ)) (p : Prepayment) :
    List ((ℕ × ℕ) × ℚ) × List ((ℕ × ℕ × String) × ℚ) :=
  let fromId := p.toId
  let toId := p.fromId
  if fromId = toId then acc
  else
    (addAssoc acc.1 (fromId, toId) (prepTripContribution p),
     addAssoc acc.2 (fromId, toId, (upperStr p.currency)) p.amountLeft)

/-- The raw (un-netted) trip-currency and other-currency debt graphs of
recalculate_settlements, accumulated over the unsettled splits and the
prepayments with positive remaining balance. -/
def aggregateDebts (tripCurU : String) (splits : List Split) (preps : List Prepayment) :
    List ((ℕ × ℕ) × ℚ) × List ((ℕ × ℕ × String) × ℚ) :=
  preps.foldl prepDebtStep (splits.foldl (splitDebtStep tripCurU) ([], []))

/-- The netting loop of recalculate_settlements (lines 100-133), generic in
the key type: iterate the debt entries, skip pairs already processed, and
emit at most one directed edge per unordered pair, of the quantized absolute
difference, pointing towards the side owed more. -/
def nettingGo {K : Type} [DecidableEq K] (rev : K → K) (debts : List (K × ℚ)) :
    List (K × ℚ) → List K → List (K × ℚ) → List (K × ℚ)
  | [], _, out => out
  | (k, amt) :: rest, processed, out =>
    if k ∈ processed then nettingGo rev debts rest processed out
    else
      let r := lookupD debts (rev k)
      let net := amt - r
      if 0 < net then nettingGo rev debts rest (k :: rev k :: processed) (out ++ [(k, q2 net)])
      else if net < 0 then
        nettingGo rev debts rest (k :: rev k :: processed) (out ++ [(rev k, q2 (-net))])
      else nettingGo rev debts rest (k :: rev k :: processed) out

/-- Net a debt graph: run the netting loop over its own entries. -/
def netDebts {K : Type} [DecidableEq K] (rev : K → K) (debts : List (K × ℚ)) :
    List (K × ℚ) :=
  nettingGo rev debts debts [] []

/-- Reversal of a trip-currency graph key. -/
def revPair (k : ℕ × ℕ) : ℕ × ℕ := (k.2, k.1)

/-- Reversal of an other-currency graph key (same currency bucket). -/
def revTriple (k : ℕ × ℕ × String) : ℕ × ℕ × String := (k.2.1, k.1, k.2.2)

/-- The splits recalculate_settlements reads: is_settlement false. -/
def activeSplits (st : TripState) : List Split :=
  st.splits.filter (fun s => s.isSettlement == false)

/-- The prepayments recalculate_settlements reads: amount_left > 0. -/
def activePreps (st : TripState) : List Prepayment :=
  st.prepayments.filter (fun p => decide (0 < p.amountLeft))

/-- The raw debt graphs of a trip state. -/
def debtsOf (st : TripState) : List ((ℕ × ℕ) × ℚ) × List ((ℕ × ℕ × String) × ℚ) :=
  aggregateDebts (upperStr st.tripCurrency) (activeSplits st) (activePreps st)

/-- settlement/service.py recalculate_settlements: rebuild both summary
tables from scratch out of the current splits and prepayments, discarding
the previous rows entirely. -/
def recalcSettlements (st : TripState) : TripState :=
  { st with
    settTrip := netDebts revPair (debtsOf st).1,
    settOther := netDebts revTriple (debtsOf st).2 }

/-! ## Settle by costs (graphql/settlement/service.py, settle_by_costs) -/

/-- A settle_by_costs batch item. -/
structure CostItem where
  expenseId : ℕ
  participantId : ℕ
deriving DecidableEq, Repr

/-- The per-item validation of settle_by_costs (lines 336-368): the expense
must exist in the trip, the caller must be its payer or the item's
participant, and the split must exist. -/
def itemCheck (st : TripState) (callerPid : ℕ) (it : CostItem) : Bool :=
  match st.expenses.find? (fun e => e.expenseId == it.expenseId) with
  | none => false
  | some e =>
    (callerPid == e.payerId || callerPid == it.participantId) &&
      st.splits.any (fun s => s.expenseId == it.expenseId && s.participantId == it.participantId)

/-- The per-item write of settle_by_costs (lines 370-373): force both
remainders to zero and mark the split settled. -/
def applyCostItem (st : TripState) (it : CostItem) : TripState :=
  { st with splits := st.splits.map (fun s =>
      if s.expenseId == it.expenseId && s.participantId == it.participantId then
        { s with leftCost := 0, leftTrip := 0, isSettlement := true }
      else s) }

/-- The settle_by_costs item loop: each item is validated against and then
applied to the current state; a failing item returns immediately, leaving
the writes of the preceding items in place (the source runs outside any
transaction, each split.save() is already committed). -/
def settleByCostsLoop (callerPid : ℕ) : TripState → List CostItem → TripState × Bool
  | st, [] => (st, true)
  | st, it :: rest =>
    if itemCheck st callerPid it then settleByCostsLoop callerPid (applyCostItem st it) rest
    else (st, false)

/-- settlement/service.py settle_by_costs: reject an empty batch or a caller
who is not a participant, run the item loop, and rebuild the settlement
summaries only when every item succeeded. -/
def settleByCosts (st : TripState) (callerUserId : ℕ) (items : List CostItem) :
    TripState × Bool :=
  if items.isEmpty then (st, false)
  else
    match st.participants.find? (fun p => p.userId == some callerUserId) with
    | none => (st, false)
    | some caller =>
      let r := settleByCostsLoop caller.participantId st items
      if r.2 then (recalcSettlements r.1, true) else r

/-! ## Expense service (graphql/expense/service.py) -/

/-- One money entry of a share's split_value. -/
structure MoneyIn where
  currency : String
  amount : ℚ
deriving DecidableEq, Repr

/-- One entry of shared_with: a participant and its (possibly mixed-currency)
split value. -/
structure ShareIn where
  participantId : ℕ
  splitValue : List MoneyIn
deriving DecidableEq, Repr

/-- expense/service.py _compute_split_amounts: accumulate a share's money
entries into a (cost-currency, trip-currency) pair; trip-currency entries
feed the trip amount directly and derive the cost amount through the rate,
other entries do the converse. -/
def computeSplitAmounts (share : ShareIn) (tripCurU : String) (rate : ℚ) : ℚ × ℚ :=
  share.splitValue.foldl
    (fun acc m =>
      let mCurU := (upperStr (trimStr m.currency))
      if mCurU = tripCurU then
        ((if rate ≠ 0 then acc.1 + q2 (m.amount / rate) else acc.1), acc.2 + m.amount)
      else
        (acc.1 + m.amount, acc.2 + q2 (m.amount * rate)))
    (0, 0)

/-- The payload of add_expense / update_expense (trip id omitted: the state
is already that of one trip). -/
structure ExpenseData where
  expenseId : ℕ
  payerId : ℕ
  amount : ℚ
  currency : String
  createdAt : ℕ
  title : String
  description : String
  category : ℤ
  sharedWith : List ShareIn
deriving DecidableEq, Repr

/-- The split-creation loop of add_expense (lines 109-137): one Split per
share, the payer's own split born settled with zero remainders, every other
split born with remainders equal to its amounts.  Fails (None) when a share
names a participant not in the trip. -/
def buildSplitsForExpense (parts : List Participant) (tripCurU : String)
    (exp : Expense) : ℕ → List ShareIn → Option (List Split)
  | _, [] => some []
  | sid, share :: rest =>
    match parts.find? (fun p => p.participantId == share.participantId) with
    | none => none
    | some participant =>
      let amounts := computeSplitAmounts share tripCurU exp.rate
      let isSettled := exp.payerId == participant.participantId
      let sp : Split :=
        { splitId := sid, expenseId := exp.expenseId,
          participantId := participant.participantId, payerId := exp.payerId,
          expCurrency := exp.currency, expRate := exp.rate,
          expCreatedAt := exp.createdAt, isSettlement := isSettled,
          amountCost := amounts.1, amountTrip := amounts.2,
          leftCost := if isSettled then 0 else amounts.1,
          leftTrip := if isSettled then 0 else amounts.2 }
      match buildSplitsForExpense parts tripCurU exp (sid + 1) rest with
      | none => none
      | some sps => some (sp :: sps)

/-- The post-creation reconciliation loop shared by add_expense and
update_expense: apply existing prepayments to each listed split, writing
the updated split and prepayments back into the store. -/
def reconcileSplits (st : TripState) (toReconcile : List Split) : TripState :=
  toReconcile.foldl
    (fun acc s =>
      let r := applyPrepaymentsToSplit acc.tripCurrency s acc.prepayments
      { acc with splits := updateSplitById acc.splits r.1, prepayments := r.2 })
    st

/-- expense/service.py add_expense: create the Expense and its Splits, apply
existing prepayments to every non-self split, and rebuild the settlement
summaries.  cross_settle_split is not invoked anywhere in this flow. -/
def addExpense (st : TripState) (data : ExpenseData) : Option TripState :=
  match st.participants.find? (fun p => p.participantId == data.payerId) with
  | none => none
  | some payer =>
    let expCurU := (upperStr (trimStr data.currency))
    let tripCurU := (upperStr st.tripCurrency)
    let rate := getExchangeRate expCurU tripCurU
    let exp : Expense :=
      { expenseId := st.nextExpenseId, createdAt := data.createdAt,
        title := (trimStr data.title), description := (trimStr data.description),
        category := data.category, currency := expCurU,
        amountCost := data.amount, amountTrip := q2 (data.amount * rate),
        rate := rate, payerId := payer.participantId }
    match buildSplitsForExpense st.participants tripCurU exp st.nextSplitId data.sharedWith with
    | none => none
    | some newSplits =>
      let st1 := { st with
        expenses := st.expenses ++ [exp],
        splits := st.splits ++ newSplits,
        nextExpenseId := st.nextExpenseId + 1,
        nextSplitId := st.nextSplitId + newSplits.length }
      let toReconcile := newSplits.filter (fun s => s.isSettlement == false)
      some (recalcSettlements (reconcileSplits st1 toReconcile))

/-- The per-participant settled-cost map of update_expense (lines 190-199):
participant id to max(0, amount_in_cost_currency - left_in_cost_currency) of
the old split. -/
def buildOldSettledCost (oldSplits : List Split) : List (ℕ × ℚ) :=
  oldSplits.foldl (fun m s => assocSet m s.participantId (max 0 (s.amountCost - s.leftCost))) []

/-- A persisted write of the update_expense share loop, in program order. -/
inductive UWrite where
  | prep (p : Prepayment)
  | split (s : Split)
deriving DecidableEq, Repr

/-- The settlement-aware branch of the update_expense share loop (lines
239-267): the payer's own share and an overpaid share leave zero remainders
— the latter also producing a compensating Prepayment in the expense
currency (rate left at the model default 1) — and a share still owing keeps
the new amount minus the settled part, the trip remainder scaled
proportionally.  Returns (left_cost, left_trip, prepayment, next prepayment
id, next clock). -/
def shareBranch (expCurU : String) (newPayerId pid prid clk : ℕ)
    (isSettled : Bool) (prevSettled newCost newTrip : ℚ) :
    ℚ × ℚ × Option Prepayment × ℕ × ℕ :=
  if isSettled then (0, 0, none, prid, clk)
  else if newCost < prevSettled then
    let overpaid := prevSettled - newCost
    (0, 0,
     some { prepId := prid, fromId := pid,
            toId := newPayerId, amount := overpaid, amountLeft := overpaid,
            currency := expCurU, rate := 1, createdDate := clk },
     prid + 1, clk + 1)
  else
    let lc := newCost - prevSettled
    let lt := if 0 < newCost then q2 (newTrip * (lc / newCost)) else 0
    (lc, lt, none, prid, clk)

/-- The share loop of update_expense (lines 231-287): one Split per share
with the remainders and compensating Prepayment decided by shareBranch.
Returns the created splits, the created prepayments, and the write sequence
in program order (each prepayment is saved just before its split). -/
def processShares (parts : List Participant) (tripCurU expCurU : String) (rate : ℚ)
    (expenseId expCreatedAt newPayerId : ℕ) (oldSettled : List (ℕ × ℚ)) :
    ℕ → ℕ → ℕ → List ShareIn → Option (List Split × List Prepayment × List UWrite)
  | _, _, _, [] => some ([], [], [])
  | sid, prid, clk, share :: rest =>
    match parts.find? (fun p => p.participantId == share.participantId) with
    | none => none
    | some participant =>
      let amounts := computeSplitAmounts share tripCurU rate
      let isSettled := newPayerId == participant.participantId
      let prevSettled := lookupD oldSettled participant.participantId
      let branch := shareBranch expCurU newPayerId participant.participantId prid clk
        isSettled prevSettled amounts.1 amounts.2
      let sp : Split :=
        { splitId := sid, expenseId := expenseId,
          participantId := participant.participantId, payerId := newPayerId,
          expCurrency := expCurU, expRate := rate, expCreatedAt := expCreatedAt,
          isSettlement := isSettled, amountCost := amounts.1, amountTrip := amounts.2,
          leftCost := branch.1, leftTrip := branch.2.1 }
      match processShares parts tripCurU expCurU rate expenseId expCreatedAt newPayerId
          oldSettled (sid + 1) branch.2.2.2.1 branch.2.2.2.2 rest with
      | none => none
      | some r =>
        some (sp :: r.1, branch.2.2.1.toList ++ r.2.1,
          branch.2.2.1.toList.map UWrite.prep ++ [UWrite.split sp] ++ r.2.2)

/-- expense/service.py update_expense: only the (old) payer may edit; the
old splits' settled costs are collected, the old splits deleted, the expense
fields (including the payer) updated, the new splits and compensating
prepayments created by the share loop, the splits still owing reconciled
against existing prepayments, and the summaries rebuilt. -/
def updateExpense (st : TripState) (callerUserId : ℕ) (data : ExpenseData) :
    Option TripState :=
  match st.expenses.find? (fun e => e.expenseId == data.expenseId) with
  | none => none
  | some exp =>
    match st.participants.find? (fun p => p.participantId == exp.payerId) with
    | none => none
    | some oldPayer =>
      if oldPayer.userId == some callerUserId then
        let tripCurU := (upperStr st.tripCurrency)
        let oldSplits := st.splits.filter (fun s => s.expenseId == data.expenseId)
        let oldSettled := buildOldSettledCost oldSplits
        let splitsAfterDelete := st.splits.filter (fun s => ¬ s.expenseId == data.expenseId)
        let expCurU := (upperStr (trimStr data.currency))
        let rate := getExchangeRate expCurU tripCurU
        match st.participants.find? (fun p => p.participantId == data.payerId) with
        | none => none
        | some newPayer =>
          let exp' : Expense :=
            { exp with
              title := (trimStr data.title), description := (trimStr data.description),
              category := data.category, currency := expCurU,
              amountCost := data.amount, amountTrip := q2 (data.amount * rate),
              rate := rate, createdAt := data.createdAt,
              payerId := newPayer.participantId }
          match processShares st.participants tripCurU expCurU rate exp.expenseId
              data.createdAt newPayer.participantId oldSettled st.nextSplitId
              st.nextPrepId st.clock data.sharedWith with
          | none => none
          | some r =>
            let st1 := { st with
              expenses := st.expenses.map (fun e => if e.expenseId == data.expenseId then exp' else e),
              splits := splitsAfterDelete ++ r.1,
              prepayments := st.prepayments ++ r.2.1,
              nextSplitId := st.nextSplitId + r.1.length,
              nextPrepId := st.nextPrepId + r.2.1.length,
              clock := st.clock + r.2.1.length }
            let toReconcile := r.1.filter (fun s => s.isSettlement == false && decide (0 < s.leftCost))
            some (recalcSettlements (reconcileSplits st1 toReconcile))
      else none

/-- The refund loop of delete_expense (lines 333-348): every non-self split
with a positive settled cost yields a Prepayment back from its participant
to the payer for that settled amount in the expense currency (rate left at
the model default 1). -/
def deleteExpenseRefunds (expCurU : String) (payerId : ℕ) :
    ℕ → ℕ → List Split → List Prepayment
  | _, _, [] => []
  | prid, clk, s :: rest =>
    if s.isSettlement then deleteExpenseRefunds expCurU payerId prid clk rest
    else
      let settledCost := s.amountCost - s.leftCost
      if 0 < settledCost then
        { prepId := prid, fromId := s.participantId, toId := payerId,
          amount := settledCost, amountLeft := settledCost,
          currency := expCurU, rate := 1, createdDate := clk }
          :: deleteExpenseRefunds expCurU payerId (prid + 1) (clk + 1) rest
      else deleteExpenseRefunds expCurU payerId prid clk rest

/-- expense/service.py delete_expense: only the payer may delete; settled
portions of the splits become refund Prepayments, then the expense and its
splits are removed and the summaries rebuilt. -/
def deleteExpense (st : TripState) (callerUserId : ℕ) (expenseId : ℕ) :
    Option TripState :=
  match st.expenses.find? (fun e => e.expenseId == expenseId) with
  | none => none
  | some exp =>
    match st.participants.find? (fun p => p.participantId == exp.payerId) with
    | none => none
    | some payer =>
      if payer.userId == some callerUserId then
        let expCurU := (upperStr exp.currency)
        let doomed := st.splits.filter (fun s => s.expenseId == expenseId)
        let refunds := deleteExpenseRefunds expCurU exp.payerId st.nextPrepId st.clock doomed
        let st1 := { st with
          expenses := st.expenses.filter (fun e => ¬ e.expenseId == expenseId),
          splits := st.splits.filter (fun s => ¬ s.expenseId == expenseId),
          prepayments := st.prepayments ++ refunds,
          nextPrepId := st.nextPrepId + refunds.length,
          clock := st.clock + refunds.length }
        some (recalcSettlements st1)
      else none

/-! ## Prepayment service (graphql/prepayment/service.py) -/

/-- prepayment/service.py add_prepayment: validate the amount, currency and
direction, resolve the caller's and the other participant's records, forbid
self-prepayments, require the currency to be the trip currency or one used
by an existing expense, create the Prepayment (its rate column keeps the
model default 1), drain it FIFO over existing splits, and rebuild the
summaries.  Returns the final state and the stored prepayment row. -/
def addPrepayment (st : TripState) (callerUserId participantId : ℕ)
    (amount : ℚ) (currency direction : String) : Option (TripState × Prepayment) :=
  let curU := (upperStr (trimStr currency))
  let dirU := (upperStr (trimStr direction))
  if amount ≤ 0 then none
  else if curU = "" then none
  else if ¬ (dirU = "TO_ME" ∨ dirU = "FROM_ME") then none
  else
    match st.participants.find? (fun p => p.userId == some callerUserId) with
    | none => none
    | some me =>
      match st.participants.find? (fun p => p.participantId == participantId) with
      | none => none
      | some other =>
        if me.participantId = other.participantId then none
        else
          let fromP := if dirU = "FROM_ME" then me else other
          let toP := if dirU = "FROM_ME" then other else me
          let tripCurU := (upperStr st.tripCurrency)
          if curU ≠ tripCurU ∧
              ¬ (st.participants ≠ [] ∧ st.expenses.any (fun e => (upperStr e.currency) == curU)) then
            none
          else
            let prep : Prepayment :=
              { prepId := st.nextPrepId, fromId := fromP.participantId,
                toId := toP.participantId, amount := amount, amountLeft := amount,
                currency := curU, rate := 1, createdDate := st.clock }
            let st1 := { st with
              prepayments := st.prepayments ++ [prep],
              nextPrepId := st.nextPrepId + 1, clock := st.clock + 1 }
            let r := applyPrepaymentToSplits st.tripCurrency prep st1.splits
            let st2 := { st1 with
              splits := r.2,
              prepayments := updatePrepById st1.prepayments r.1 }
            some (recalcSettlements st2, r.1)

/-! ## Concrete example states used by the claim evaluations below -/

/-- Two participants, USD trip, empty ledger. -/
def stBase : TripState :=
  { tripCurrency := "USD",
    participants := [⟨1, some 11, "ann"⟩, ⟨2, some 22, "bob"⟩],
    expenses := [], splits := [], prepayments := [],
    settTrip := [], settOther := [],
    nextExpenseId := 1, nextSplitId := 1, nextPrepId := 1, clock := 0 }

/-- Expense payload: bob (2) pays 10 USD, ann (1) owes it all. -/
def dataC1a : ExpenseData :=
  { expenseId := 0, payerId := 2, amount := 10, currency := "USD",
    createdAt := 1, title := "fuel", description := "", category := 0,
    sharedWith := [⟨1, [⟨"USD", 10⟩]⟩] }

/-- Expense payload: ann (1) pays 10 USD, bob (2) owes it all. -/
def dataC1b : ExpenseData :=
  { expenseId := 0, payerId := 1, amount := 10, currency := "USD",
    createdAt := 2, title := "food", description := "", category := 0,
    sharedWith := [⟨2, [⟨"USD", 10⟩]⟩] }

/-- The ledger after the two opposing 10 USD expenses (dataC1a then
dataC1b). -/
def chainC1 : Option TripState :=
  (addExpense stBase dataC1a).bind (fun s => addExpense s dataC1b)

/-- The split created by dataC1a: ann owes bob 10 USD. -/
def sOldC1 : Split := ⟨1, 1, 1, 2, "USD", 1, 1, false, 10, 10, 10, 10⟩

/-- The split created by dataC1b: bob owes ann 10 USD. -/
def sNewC1 : Split := ⟨2, 2, 2, 1, "USD", 1, 2, false, 10, 10, 10, 10⟩

/-- Expense payload: ann (1) pays a 0.10 EUR expense, bob (2) owes EUR
0.10. -/
def dataC2 : ExpenseData :=
  { expenseId := 0, payerId := 1, amount := 1/10, currency := "EUR",
    createdAt := 1, title := "taxi", description := "", category := 0,
    sharedWith := [⟨2, [⟨"EUR", 1/10⟩]⟩] }

/-- The ledger after: the 0.10 EUR expense, a 0.095 USD prepayment from bob
to ann, and a 1.00 EUR prepayment from bob to ann — all through the public
operations. -/
def negRemainderChain : Option TripState :=
  (addExpense stBase dataC2).bind (fun s1 =>
    (addPrepayment s1 22 1 (19/200) "USD" "FROM_ME").bind (fun r2 =>
      (addPrepayment r2.1 22 1 1 "EUR" "FROM_ME").map Prod.fst))

/-- A trip with one 10 USD expense paid by ann (1) and owed by bob (2). -/
def stC3 : TripState :=
  { tripCurrency := "USD",
    participants := [⟨1, some 11, "ann"⟩, ⟨2, some 22, "bob"⟩],
    expenses := [⟨1, 1, "fuel", "", 0, "USD", 10, 10, 1, 1⟩],
    splits := [⟨1, 1, 2, 1, "USD", 1, 1, false, 10, 10, 10, 10⟩],
    prepayments := [], settTrip := [((2, 1), 10)], settOther := [((2, 1, "USD"), 10)],
    nextExpenseId := 2, nextSplitId := 2, nextPrepId := 1, clock := 0 }

/-- A settle_by_costs batch whose first item is valid and whose second names
a missing expense. -/
def itemsC3 : List CostItem := [⟨1, 2⟩, ⟨99, 2⟩]

/-- The state settle_by_costs leaves behind on the failing batch. -/
def stC3fail : TripState := (settleByCosts stC3 11 itemsC3).1

/-- A trip with one 10 USD expense paid by ann (1), fully settled by carol
(3). -/
def stC4 : TripState :=
  { tripCurrency := "USD",
    participants := [⟨1, some 11, "ann"⟩, ⟨2, some 22, "bob"⟩, ⟨3, some 33, "cal"⟩],
    expenses := [⟨1, 1, "fuel", "", 0, "USD", 10, 10, 1, 1⟩],
    splits := [⟨1, 1, 3, 1, "USD", 1, 1, false, 10, 10, 0, 0⟩],
    prepayments := [], settTrip := [], settOther := [],
    nextExpenseId := 2, nextSplitId := 2, nextPrepId := 1, clock := 5 }

/-- Update payload for stC4: the payer changes from ann (1) to bob (2) and
carol's share shrinks to 5 USD, below the 10 already settled. -/
def dataC4 : ExpenseData :=
  { expenseId := 1, payerId := 2, amount := 5, currency := "USD",
    createdAt := 1, title := "fuel", description := "", category := 0,
    sharedWith := [⟨3, [⟨"USD", 5⟩]⟩] }

/-- The single share of dataC4: carol's 5 USD share. -/
def shareC4 : ShareIn := ⟨3, [⟨"USD", 5⟩]⟩

/-- The share-loop output for the stC4/dataC4 update. -/
def psResC4 : List Split × List Prepayment × List UWrite :=
  (processShares stC4.participants "USD" "USD" 1 1 1 2 [(3, 10)] 2 1 5
    dataC4.sharedWith).getD ([], [], [])

/-- The compensating prepayment created by that update: carol to bob
(the new payer) for the 5 USD difference. -/
def wPrepC4 : Prepayment := ⟨1, 3, 2, 5, 5, "USD", 1, 5⟩

/-- The result of a valid add_prepayment call on stBase: ann prepays 5 USD
to bob. -/
def addPrepResult : TripState × Prepayment :=
  (addPrepayment stBase 11 2 5 "USD" "FROM_ME").getD (stBase, ⟨0, 0, 0, 0, 0, "", 0, 0⟩)

/-- A split of a 10 USD expense with 4 USD already settled, used to feed the
delete_expense refund loop. -/
def wSplitDel : Split := ⟨1, 1, 2, 1, "USD", 1, 1, false, 10, 10, 6, 6⟩

/-- The refund prepayment delete_expense creates for wSplitDel. -/
def wPrepDel : Prepayment := ⟨1, 2, 1, 4, 4, "USD", 1, 0⟩

/-- A trip whose ledger holds one unsettled 30 USD split: bob (2) owes ann
(1). -/
def stC6 : TripState :=
  { tripCurrency := "USD",
    participants := [⟨1, some 11, "ann"⟩, ⟨2, some 22, "bob"⟩],
    expenses := [⟨1, 1, "fuel", "", 0, "USD", 30, 30, 1, 1⟩],
    splits := [⟨1, 1, 2, 1, "USD", 1, 1, false, 30, 30, 30, 30⟩],
    prepayments := [], settTrip := [], settOther := [],
    nextExpenseId := 2, nextSplitId := 2, nextPrepId := 1, clock := 0 }

/-- A split where bob (2) owes ann (1) 10 USD on a trip-currency expense. -/
def w7s : Split := ⟨1, 1, 2, 1, "USD", 1, 1, false, 10, 10, 10, 10⟩

/-- The older prepayment from bob to ann: 4 USD. -/
def w7p1 : Prepayment := ⟨1, 2, 1, 4, 4, "USD", 1, 0⟩

/-- The newer prepayment from bob to ann: 8 USD. -/
def w7p2 : Prepayment := ⟨2, 2, 1, 8, 8, "USD", 1, 1⟩

/-- A split with zero trip remainder but positive cost remainder. -/
def w10s : Split := ⟨1, 1, 2, 1, "EUR", 1, 1, false, 10, 10, 5, 0⟩

/-- A matching prepayment that must stay untouched against w10s. -/
def w10p : Prepayment := ⟨1, 2, 1, 9, 9, "EUR", 1, 0⟩

/-- An ordinary unsettled candidate split: bob owes ann 3 USD. -/
def w10s2 : Split := ⟨2, 2, 2, 1, "USD", 1, 2, false, 3, 3, 3, 3⟩

/-! ## Helper lemmas -/

theorem mem_insertByKey {α : Type} (key : α → ℕ) (x y : α) :
    ∀ l : List α, y ∈ insertByKey key x l ↔ y = x ∨ y ∈ l := by
  intro l
  induction l with
  | nil => simp [insertByKey]
  | cons a l ih =>
    by_cases h : key x < key a
    · simp [insertByKey, h]
    · simp only [insertByKey, if_neg h, List.mem_cons, ih]
      tauto

theorem mem_sortByKey {α : Type} (key : α → ℕ) (y : α) :
    ∀ l : List α, y ∈ sortByKey key l ↔ y ∈ l := by
  intro l
  induction l with
  | nil => simp [sortByKey]
  | cons a l ih =>
    show y ∈ insertByKey key a (sortByKey key l) ↔ _
    rw [mem_insertByKey]
    simp [ih]

theorem lookupD_eq_of_mem {K : Type} [DecidableEq K] :
    ∀ l : List (K × ℚ), (keysOf l).Nodup → ∀ kv ∈ l, lookupD l kv.1 = kv.2 := by
  intro l
  induction l with
  | nil => intro _ kv h; cases h
  | cons a l ih =>
    intro hnd kv hm
    rw [keysOf, List.map_cons, List.nodup_cons] at hnd
    rcases List.mem_cons.mp hm with h | h
    · subst h
      simp [lookupD]
    · have hne : a.1 ≠ kv.1 := by
        intro he
        exact hnd.1 (he ▸ List.mem_map_of_mem Prod.fst h)
      rw [lookupD.eq_def]
      simp only [if_neg hne]
      exact ih hnd.2 kv h

theorem mem_keysOf_addAssoc {K : Type} [DecidableEq K] :
    ∀ (l : List (K × ℚ)) (k : K) (v : ℚ) (x : K),
      x ∈ keysOf (addAssoc l k v) → x ∈ keysOf l ∨ x = k := by
  intro l
  induction l with
  | nil => intro k v x hx; simp [addAssoc, keysOf] at hx; simp [hx]
  | cons a l ih =>
    intro k v x hx
    by_cases h : a.1 = k
    · rw [addAssoc.eq_def] at hx
      simp only [if_pos h] at hx
      left; exact hx
    · rw [addAssoc.eq_def] at hx
      simp only [if_neg h] at hx
      rw [keysOf, List.map_cons, List.mem_cons] at hx
      rcases hx with hx | hx
      · left; rw [keysOf, List.map_cons, List.mem_cons]; left; exact hx
      · rcases ih k v x hx with h2 | h2
        · left; rw [keysOf, List.map_cons, List.mem_cons]; right; exact h2
        · right; exact h2

theorem nodup_keysOf_addAssoc {K : Type} [DecidableEq K] :
    ∀ (l : List (K × ℚ)) (k : K) (v : ℚ),
      (keysOf l).Nodup → (keysOf (addAssoc l k v)).Nodup := by
  intro l
  induction l with
  | nil => intro k v _; simp [addAssoc, keysOf]
  | cons a l ih =>
    intro k v hnd
    rw [keysOf, List.map_cons, List.nodup_cons] at hnd
    by_cases h : a.1 = k
    · rw [addAssoc.eq_def]
      simp only [if_pos h]
      rw [keysOf, List.map_cons, List.nodup_cons]
      exact ⟨hnd.1, hnd.2⟩
    · rw [addAssoc.eq_def]
      simp only [if_neg h]
      rw [keysOf, List.map_cons, List.nodup_cons]
      refine ⟨?_, ih k v hnd.2⟩
      intro hmem
      rcases mem_keysOf_addAssoc l k v a.1 hmem with h2 | h2
      · exact hnd.1 h2
      · exact h h2

theorem splitDebtStep_nodup (tripCurU : String)
    (acc : List ((ℕ × ℕ) × ℚ) × List ((ℕ × ℕ × String) × ℚ)) (s : Split)
    (h1 : (keysOf acc.1).Nodup) (h2 : (keysOf acc.2).Nodup) :
    (keysOf (splitDebtStep tripCurU acc s).1).Nodup ∧
      (keysOf (splitDebtStep tripCurU acc s).2).Nodup := by
  unfold splitDebtStep
  by_cases hz : s.leftTrip ≤ 0 ∧ s.leftCost ≤ 0
  · simp only [if_pos hz]; exact ⟨h1, h2⟩
  · simp only [if_neg hz]
    by_cases hself : s.participantId = s.payerId
    · simp only [if_pos hself]; exact ⟨h1, h2⟩
    · simp only [if_neg hself]
      by_cases hlt : 0 < s.leftTrip
      · simp only [if_pos hlt]
        by_cases hcur : (upperStr s.expCurrency) = tripCurU
        · simp only [if_pos hcur]
          exact ⟨nodup_keysOf_addAssoc _ _ _ h1, nodup_keysOf_addAssoc _ _ _ h2⟩
        · simp only [if_neg hcur]
          by_cases hlc : 0 < s.leftCost
          · simp only [if_pos hlc]
            exact ⟨nodup_keysOf_addAssoc _ _ _ h1, nodup_keysOf_addAssoc _ _ _ h2⟩
          · simp only [if_neg hlc]
            exact ⟨nodup_keysOf_addAssoc _ _ _ h1, h2⟩
      · simp only [if_neg hlt]
        by_cases hcur : (upperStr s.expCurrency) = tripCurU
        · simp only [if_pos hcur]
          exact ⟨h1, h2⟩
        · simp only [if_neg hcur]
          by_cases hlc : 0 < s.leftCost
          · simp only [if_pos hlc]
            exact ⟨h1, nodup_keysOf_addAssoc _ _ _ h2⟩
          · simp only [if_neg hlc]
            exact ⟨h1, h2⟩

theorem prepDebtStep_nodup
    (acc : List ((ℕ × ℕ) × ℚ) × List ((ℕ × ℕ × String) × ℚ)) (p : Prepayment)
    (h1 : (keysOf acc.1).Nodup) (h2 : (keysOf acc.2).Nodup) :
    (keysOf (prepDebtStep acc p).1).Nodup ∧ (keysOf (prepDebtStep acc p).2).Nodup := by
  unfold prepDebtStep
  by_cases hself : p.toId = p.fromId
  · simp only [if_pos hself]; exact ⟨h1, h2⟩
  · simp only [if_neg hself]
    exact ⟨nodup_keysOf_addAssoc _ _ _ h1, nodup_keysOf_addAssoc _ _ _ h2⟩

theorem splitFold_nodup (tripCurU : String) :
    ∀ (splits : List Split) (acc : List ((ℕ × ℕ) × ℚ) × List ((ℕ × ℕ × String) × ℚ)),
      (keysOf acc.1).Nodup → (keysOf acc.2).Nodup →
      (keysOf (splits.foldl (splitDebtStep tripCurU) acc).1).Nodup ∧
        (keysOf (splits.foldl (splitDebtStep tripCurU) acc).2).Nodup := by
  intro splits
  induction splits with
  | nil => intro acc h1 h2; exact ⟨h1, h2⟩
  | cons s rest ih =>
    intro acc h1 h2
    have h := splitDebtStep_nodup tripCurU acc s h1 h2
    exact ih _ h.1 h.2

theorem prepFold_nodup :
    ∀ (preps : List Prepayment) (acc : List ((ℕ × ℕ) × ℚ) × List ((ℕ × ℕ × String) × ℚ)),
      (keysOf acc.1).Nodup → (keysOf acc.2).Nodup →
      (keysOf (preps.foldl prepDebtStep acc).1).Nodup ∧
        (keysOf (preps.foldl prepDebtStep acc).2).Nodup := by
  intro preps
  induction preps with
  | nil => intro acc h1 h2; exact ⟨h1, h2⟩
  | cons p rest ih =>
    intro acc h1 h2
    have h := prepDebtStep_nodup acc p h1 h2
    exact ih _ h.1 h.2

theorem aggregateDebts_nodup (tripCurU : String) (splits : List Split)
    (preps : List Prepayment) :
    (keysOf (aggregateDebts tripCurU splits preps).1).Nodup ∧
      (keysOf (aggregateDebts tripCurU splits preps).2).Nodup := by
  unfold aggregateDebts
  have h := splitFold_nodup tripCurU splits ([], []) (by simp [keysOf]) (by simp [keysOf])
  exact prepFold_nodup preps _ h.1 h.2

theorem debtsOf_nodup (st : TripState) :
    (keysOf (debtsOf st).1).Nodup ∧ (keysOf (debtsOf st).2).Nodup :=
  aggregateDebts_nodup _ _ _

theorem filterKey_append {K : Type} [DecidableEq K] (l1 l2 : List (K × ℚ)) (k : K) :
    filterKey (l1 ++ l2) k = filterKey l1 k ++ filterKey l2 k := by
  simp only [filterKey, List.filter_append]

theorem filterKey_single_ne {K : Type} [DecidableEq K] (k' : K) (v : ℚ) (k : K)
    (h : k' ≠ k) : filterKey [(k', v)] k = [] := by
  simp [filterKey, h]

theorem filterKey_single_eq {K : Type} [DecidableEq K] (k : K) (v : ℚ) :
    filterKey [(k, v)] k = [(k, v)] := by
  simp [filterKey]

theorem nettingGo_skip {K : Type} [DecidableEq K] (rev : K → K)
    (hrev : ∀ x, rev (rev x) = x) (debts : List (K × ℚ)) (k : K) :
    ∀ (rest : List (K × ℚ)) (processed : List K) (out : List (K × ℚ)),
      k ∈ processed → rev k ∈ processed →
      filterKey (nettingGo rev debts rest processed out) k = filterKey out k := by
  intro rest
  induction rest with
  | nil => intro processed out _ _; rfl
  | cons a rest ih =>
    obtain ⟨k', amt⟩ := a
    intro processed out hk hrk
    by_cases hproc : k' ∈ processed
    · simp only [nettingGo, if_pos hproc]
      exact ih processed out hk hrk
    · have h1 : k' ≠ k := fun he => hproc (he ▸ hk)
      have h2 : k' ≠ rev k := fun he => hproc (he ▸ hrk)
      have h3 : rev k' ≠ k := by
        intro he
        exact h2 (by rw [← hrev k', he])
      have hk' : k ∈ k' :: rev k' :: processed :=
        List.mem_cons_of_mem _ (List.mem_cons_of_mem _ hk)
      have hrk' : rev k ∈ k' :: rev k' :: processed :=
        List.mem_cons_of_mem _ (List.mem_cons_of_mem _ hrk)
      simp only [nettingGo, if_neg hproc]
      by_cases hpos : 0 < amt - lookupD debts (rev k')
      · simp only [if_pos hpos]
        rw [ih _ _ hk' hrk', filterKey_append, filterKey_single_ne _ _ _ h1,
          List.append_nil]
      · simp only [if_neg hpos]
        by_cases hneg : amt - lookupD debts (rev k') < 0
        · simp only [if_pos hneg]
          rw [ih _ _ hk' hrk', filterKey_append, filterKey_single_ne _ _ _ h3,
            List.append_nil]
        · simp only [if_neg hneg]
          exact ih _ _ hk' hrk'

theorem nettingGo_pair {K : Type} [DecidableEq K] (rev : K → K)
    (hrev : ∀ x, rev (rev x) = x) (debts : List (K × ℚ)) (k : K) (hkk : rev k ≠ k) :
    ∀ (rest : List (K × ℚ)) (processed : List K) (out : List (K × ℚ)),
      (∀ kv ∈ rest, lookupD debts kv.1 = kv.2) →
      k ∉ processed → rev k ∉ processed →
      filterKey out k = [] →
      filterKey (nettingGo rev debts rest processed out) k =
        (if (k ∈ keysOf rest ∨ rev k ∈ keysOf rest) ∧
            lookupD debts (rev k) < lookupD debts k
         then [(k, q2 (lookupD debts k - lookupD debts (rev k)))] else []) := by
  intro rest
  induction rest with
  | nil =>
    intro processed out _ _ _ hout
    simp only [nettingGo, keysOf, List.map_nil, List.not_mem_nil, or_self, false_and,
      if_false]
    exact hout
  | cons a rest ih =>
    obtain ⟨k', amt⟩ := a
    intro processed out hval hkp hrkp hout
    have hd : lookupD debts k' = amt := hval (k', amt) (List.mem_cons_self _ _)
    have hval' : ∀ kv ∈ rest, lookupD debts kv.1 = kv.2 :=
      fun kv h => hval kv (List.mem_cons_of_mem _ h)
    by_cases hproc : k' ∈ processed
    · have h1 : k' ≠ k := fun he => hkp (he ▸ hproc)
      have h2 : k' ≠ rev k := fun he => hrkp (he ▸ hproc)
      simp only [nettingGo, if_pos hproc]
      rw [ih _ _ hval' hkp hrkp hout]
      have hmemiff : (k ∈ keysOf ((k', amt) :: rest) ∨ rev k ∈ keysOf ((k', amt) :: rest))
          ↔ (k ∈ keysOf rest ∨ rev k ∈ keysOf rest) := by
        simp only [keysOf, List.map_cons, List.mem_cons]
        constructor
        · rintro ((h | h) | (h | h))
          · exact absurd h.symm h1
          · exact Or.inl h
          · exact absurd h.symm h2
          · exact Or.inr h
        · rintro (h | h)
          · exact Or.inl (Or.inr h)
          · exact Or.inr (Or.inr h)
      rw [if_congr (and_congr_left' hmemiff) rfl rfl]
    · by_cases hk'k : k' = k
      · subst hk'k
        have hkmem : k' ∈ keysOf ((k', amt) :: rest) := by
          rw [keysOf, List.map_cons]
          exact List.mem_cons_self _ _
        have hkin : k' ∈ k' :: rev k' :: processed := List.mem_cons_self _ _
        have hrkin : rev k' ∈ k' :: rev k' :: processed :=
          List.mem_cons_of_mem _ (List.mem_cons_self _ _)
        simp only [nettingGo, if_neg hproc]
        by_cases hpos : 0 < amt - lookupD debts (rev k')
        · simp only [if_pos hpos]
          rw [nettingGo_skip rev hrev debts k' rest _ _ hkin hrkin, filterKey_append,
            hout, List.nil_append, filterKey_single_eq]
          rw [if_pos ⟨Or.inl hkmem, by rw [hd]; linarith⟩, hd]
        · simp only [if_neg hpos]
          by_cases hneg : amt - lookupD debts (rev k') < 0
          · simp only [if_pos hneg]
            rw [nettingGo_skip rev hrev debts k' rest _ _ hkin hrkin, filterKey_append,
              hout, List.nil_append, filterKey_single_ne _ _ _ hkk]
            rw [if_neg]
            rintro ⟨-, hlt⟩
            rw [hd] at hlt
            linarith
          · simp only [if_neg hneg]
            rw [nettingGo_skip rev hrev debts k' rest _ _ hkin hrkin, hout]
            rw [if_neg]
            rintro ⟨-, hlt⟩
            rw [hd] at hlt
            linarith
      · by_cases hk'rk : k' = rev k
        · subst hk'rk
          have hrevrev : rev (rev k) = k := hrev k
          have hkmem : rev k ∈ keysOf ((rev k, amt) :: rest) := by
            rw [keysOf, List.map_cons]
            exact List.mem_cons_self _ _
          have hkin : k ∈ rev k :: k :: processed :=
            List.mem_cons_of_mem _ (List.mem_cons_self _ _)
          have hrkin : rev k ∈ rev k :: k :: processed :=
            List.mem_cons_self _ _
          simp only [nettingGo, if_neg hproc, hrevrev]
          by_cases hpos : 0 < amt - lookupD debts k
          · simp only [if_pos hpos]
            rw [nettingGo_skip rev hrev debts k rest _ _ hkin hrkin, filterKey_append,
              hout, List.nil_append, filterKey_single_ne _ _ _ hkk]
            rw [if_neg]
            rintro ⟨-, hlt⟩
            rw [hd] at hlt
            linarith
          · simp only [if_neg hpos]
            by_cases hneg : amt - lookupD debts k < 0
            · simp only [if_pos hneg]
              rw [nettingGo_skip rev hrev debts k rest _ _ hkin hrkin, filterKey_append,
                hout, List.nil_append, filterKey_single_eq]
              rw [if_pos ⟨Or.inr hkmem, by rw [hd]; linarith⟩, hd]
              rw [neg_sub]
            · simp only [if_neg hneg]
              rw [nettingGo_skip rev hrev debts k rest _ _ hkin hrkin, hout]
              rw [if_neg]
              rintro ⟨-, hlt⟩
              rw [hd] at hlt
              linarith
        · have h3 : rev k' ≠ k := by
            intro he
            exact hk'rk (by rw [← hrev k', he])
          have h4 : rev k' ≠ rev k := by
            intro he
            exact hk'k (by rw [← hrev k', he, hrev])
          have hkp' : k ∉ k' :: rev k' :: processed := by
            intro hm
            rcases List.mem_cons.mp hm with he | hm
            · exact hk'k he.symm
            rcases List.mem_cons.mp hm with he | hm
            · exact h3 he.symm
            · exact hkp hm
          have hrkp' : rev k ∉ k' :: rev k' :: processed := by
            intro hm
            rcases List.mem_cons.mp hm with he | hm
            · exact hk'rk he.symm
            rcases List.mem_cons.mp hm with he | hm
            · exact h4 he.symm
            · exact hrkp hm
          have hmemiff : (k ∈ keysOf ((k', amt) :: rest) ∨ rev k ∈ keysOf ((k', amt) :: rest))
              ↔ (k ∈ keysOf rest ∨ rev k ∈ keysOf rest) := by
            simp only [keysOf, List.map_cons, List.mem_cons]
            constructor
            · rintro ((h | h) | (h | h))
              · exact absurd h.symm hk'k
              · exact Or.inl h
              · exact absurd h.symm hk'rk
              · exact Or.inr h
            · rintro (h | h)
              · exact Or.inl (Or.inr h)
              · exact Or.inr (Or.inr h)
          simp only [nettingGo, if_neg hproc]
          by_cases hpos : 0 < amt - lookupD debts (rev k')
          · simp only [if_pos hpos]
            have hout' : filterKey (out ++ [(k', q2 (amt - lookupD debts (rev k')))]) k = [] := by
              rw [filterKey_append, hout, List.nil_append, filterKey_single_ne _ _ _ hk'k]
            rw [ih _ _ hval' hkp' hrkp' hout']
            rw [if_congr (and_congr_left' hmemiff) rfl rfl]
          · simp only [if_neg hpos]
            by_cases hneg : amt - lookupD debts (rev k') < 0
            · simp only [if_pos hneg]
              have hout' : filterKey
                  (out ++ [(rev k', q2 (-(amt - lookupD debts (rev k'))))]) k = [] := by
                rw [filterKey_append, hout, List.nil_append, filterKey_single_ne _ _ _ h3]
              rw [ih _ _ hval' hkp' hrkp' hout']
              rw [if_congr (and_congr_left' hmemiff) rfl rfl]
            · simp only [if_neg hneg]
              rw [ih _ _ hval' hkp' hrkp' hout]
              rw [if_congr (and_congr_left' hmemiff) rfl rfl]

theorem netDebts_pair {K : Type} [DecidableEq K] (rev : K → K)
    (hrev : ∀ x, rev (rev x) = x) (debts : List (K × ℚ))
    (hnd : (keysOf debts).Nodup) (k : K) (hkk : rev k ≠ k) :
    filterKey (netDebts rev debts) k =
      (if (k ∈ keysOf debts ∨ rev k ∈ keysOf debts) ∧
          lookupD debts (rev k) < lookupD debts k
       then [(k, q2 (lookupD debts k - lookupD debts (rev k)))] else []) := by
  unfold netDebts
  exact nettingGo_pair rev hrev debts k hkk debts [] []
    (fun kv h => lookupD_eq_of_mem debts hnd kv h)
    (List.not_mem_nil k) (List.not_mem_nil (rev k)) rfl

theorem q2_isCent (x : ℚ) (h : isCent x) : q2 x = x := by
  obtain ⟨n, rfl⟩ := h
  unfold q2 rhe
  have h100 : ((n : ℚ) / 100) * 100 = (n : ℚ) := by
    field_simp
  rw [h100]
  have hfl : ⌊(n : ℚ)⌋ = n := Int.floor_intCast n
  simp only [hfl, sub_self]
  norm_num

theorem isCent_sub (x y : ℚ) (hx : isCent x) (hy : isCent y) : isCent (x - y) := by
  obtain ⟨m, rfl⟩ := hx
  obtain ⟨n, rfl⟩ := hy
  refine ⟨m - n, ?_⟩
  push_cast
  ring

theorem min_eq_left_of_lt_right {a b : ℚ} (h : min a b < b) : min a b = a := by
  rcases le_total a b with hab | hab
  · exact min_eq_left hab
  · rw [min_eq_right hab] at h
    exact absurd h (lt_irrefl b)

theorem applyPrepsGo_cons_matched (tripCurU : String) (s : Split) (p : Prepayment)
    (ps : List Prepayment) (hm : prepMatches s p = true) (hlt : ¬ s.leftTrip ≤ 0) :
    applyPrepsGo tripCurU s (p :: ps) =
      ((applyPrepsGo tripCurU (applyPrepStep tripCurU s p).1 ps).1,
       (applyPrepStep tripCurU s p).2 ::
         (applyPrepsGo tripCurU (applyPrepStep tripCurU s p).1 ps).2) := by
  simp only [applyPrepsGo, hm, not_true_eq_false, if_false, if_neg hlt]

theorem applyPrepsGo_cons_break (tripCurU : String) (s : Split) (p : Prepayment)
    (ps : List Prepayment) (hm : prepMatches s p = true) (hle : s.leftTrip ≤ 0) :
    applyPrepsGo tripCurU s (p :: ps) = (s, p :: ps) := by
  simp only [applyPrepsGo, hm, not_true_eq_false, if_false, if_pos hle]

theorem applyPrepStep_trip (tripCurU : String) (s : Split) (p : Prepayment)
    (hc : (upperStr p.currency) = tripCurU) (hp : 0 < p.amountLeft) (hs : 0 < s.leftTrip) :
    applyPrepStep tripCurU s p =
      ({ s with
          leftTrip := s.leftTrip - min p.amountLeft s.leftTrip,
          leftCost := max 0 (s.leftCost -
            (if s.expRate ≠ 0 then q2 (min p.amountLeft s.leftTrip / s.expRate)
             else min p.amountLeft s.leftTrip)) },
       { p with amountLeft := p.amountLeft - min p.amountLeft s.leftTrip }) := by
  simp only [applyPrepStep, minPositive, if_pos hc, if_pos hp, if_pos hs]

theorem prepToSplitsStep_rate (tripCurU : String) (p : Prepayment) (s : Split) :
    ((prepToSplitsStep tripCurU p s).1).rate = p.rate := by
  unfold prepToSplitsStep
  by_cases h : (upperStr p.currency) = tripCurU
  · simp only [if_pos h]
  · simp only [if_neg h]

theorem applyPrepToSplitsLoop_rate (tripCurU : String) :
    ∀ (cands : List Split) (p : Prepayment),
      ((applyPrepToSplitsLoop tripCurU p cands).1).rate = p.rate := by
  intro cands
  induction cands with
  | nil => intro p; rfl
  | cons s ss ih =>
    intro p
    by_cases h : p.amountLeft ≤ 0
    · simp only [applyPrepToSplitsLoop, if_pos h]
    · simp only [applyPrepToSplitsLoop, if_neg h]
      rw [ih]
      exact prepToSplitsStep_rate tripCurU p s

theorem applyPrepaymentToSplits_rate (tripCur : String) (p : Prepayment)
    (splits : List Split) : ((applyPrepaymentToSplits tripCur p splits).1).rate = p.rate := by
  unfold applyPrepaymentToSplits
  by_cases h : p.amountLeft ≤ 0
  · simp only [if_pos h]
  · simp only [if_neg h]
    exact applyPrepToSplitsLoop_rate _ _ _

theorem settleByCostsLoop_false_shape (c : ℕ) :
    ∀ (items : List CostItem) (st st' : TripState),
      settleByCostsLoop c st items = (st', false) →
      ∃ pre it rest, items = pre ++ it :: rest ∧
        settleByCostsLoop c st pre = (st', true) ∧ itemCheck st' c it = false := by
  intro items
  induction items with
  | nil =>
    intro st st' h
    simp only [settleByCostsLoop, Prod.mk.injEq] at h
    exact absurd h.2 (by simp)
  | cons it rest ih =>
    intro st st' h
    by_cases hc : itemCheck st c it
    · rw [settleByCostsLoop, if_pos hc] at h
      obtain ⟨pre, it', rest', heq, hloop, hfail⟩ := ih (applyCostItem st it) st' h
      refine ⟨it :: pre, it', rest', by rw [heq]; rfl, ?_, hfail⟩
      rw [settleByCostsLoop, if_pos hc]
      exact hloop
    · rw [settleByCostsLoop, if_neg hc] at h
      have hst : st = st' := congrArg Prod.fst h
      refine ⟨[], it, rest, rfl, ?_, ?_⟩
      · rw [settleByCostsLoop, hst]
      · rw [← hst]
        exact Bool.of_not_eq_true hc

theorem shareBranch_prep_some (expCurU : String) (npid pid prid clk : ℕ)
    (isSettled : Bool) (prevSettled newCost newTrip : ℚ) (p : Prepayment)
    (h : (shareBranch expCurU npid pid prid clk isSettled prevSettled newCost newTrip).2.2.1
      = some p) :
    isSettled = false ∧ newCost < prevSettled ∧
      p = ⟨prid, pid, npid, prevSettled - newCost, prevSettled - newCost, expCurU, 1, clk⟩ ∧
      (shareBranch expCurU npid pid prid clk isSettled prevSettled newCost newTrip).1 = 0 ∧
      (shareBranch expCurU npid pid prid clk isSettled prevSettled newCost newTrip).2.1 = 0 := by
  cases isSettled with
  | true => exact absurd h (by simp [shareBranch])
  | false =>
    by_cases hlt : newCost < prevSettled
    · simp only [shareBranch, Bool.false_eq_true, if_false, if_pos hlt,
        Option.some.injEq] at h
      refine ⟨rfl, hlt, h.symm, ?_, ?_⟩ <;>
        simp [shareBranch, hlt]
    · exact absurd h (by simp [shareBranch, hlt])

theorem processShares_prep_mem (parts : List Participant) (tCu eCu : String) (rate : ℚ)
    (eid eca npid : ℕ) (oldSettled : List (ℕ × ℚ)) :
    ∀ (shares : List ShareIn) (sid prid clk : ℕ)
      (sps : List Split) (preps : List Prepayment) (ws : List UWrite),
      processShares parts tCu eCu rate eid eca npid oldSettled sid prid clk shares
        = some (sps, preps, ws) →
      ∀ p ∈ preps, p.toId = npid ∧ p.rate = 1 ∧
        ∃ sp w1 w2, ws = w1 ++ UWrite.prep p :: UWrite.split sp :: w2 ∧
          sp.participantId = p.fromId ∧ sp.leftCost = 0 ∧ sp.leftTrip = 0 := by
  intro shares
  induction shares with
  | nil =>
    intro sid prid clk sps preps ws h p hp
    simp only [processShares, Option.some.injEq, Prod.mk.injEq] at h
    rw [← h.2.1] at hp
    cases hp
  | cons share rest ih =>
    intro sid prid clk sps preps ws h p hp
    simp only [processShares] at h
    cases hfind : parts.find? (fun q => q.participantId == share.participantId) with
    | none =>
      simp only [hfind] at h
      exact Option.noConfusion h
    | some participant =>
      simp only [hfind] at h
      set B := shareBranch eCu npid participant.participantId prid clk
        (npid == participant.participantId)
        (lookupD oldSettled participant.participantId)
        (computeSplitAmounts share tCu rate).1
        (computeSplitAmounts share tCu rate).2 with hB
      cases hrec : processShares parts tCu eCu rate eid eca npid oldSettled (sid + 1)
          B.2.2.2.1 B.2.2.2.2 rest with
      | none =>
        rw [hrec] at h
        cases h
      | some r =>
        rw [hrec] at h
        simp only [Option.some.injEq, Prod.mk.injEq] at h
        obtain ⟨hsps, hpreps, hws⟩ := h
        rw [← hpreps] at hp
        rcases List.mem_append.mp hp with hp1 | hp2
        · cases hopt : B.2.2.1 with
          | none =>
            rw [hopt] at hp1
            cases hp1
          | some p0 =>
            rw [hopt] at hp1
            simp only [Option.toList, List.mem_singleton] at hp1
            subst hp1
            have hopt' := hopt
            rw [hB] at hopt'
            obtain ⟨hset, hlt, hpeq, hb1, hb2⟩ :=
              shareBranch_prep_some _ _ _ _ _ _ _ _ _ _ hopt'
            refine ⟨by rw [hpeq], by rw [hpeq],
              ⟨sid, eid, participant.participantId, npid, eCu, rate, eca,
                npid == participant.participantId,
                (computeSplitAmounts share tCu rate).1,
                (computeSplitAmounts share tCu rate).2, B.1, B.2.1⟩,
              [], r.2.2, ?_, ?_, ?_, ?_⟩
            · rw [← hws, hopt]
              simp [Option.toList]
            · simp only [hpeq]
            · show B.1 = 0
              rw [hB]
              exact hb1
            · show B.2.1 = 0
              rw [hB]
              exact hb2
        · obtain ⟨htoId, hrate, sp', w1', w2', hws', hsp1, hsp2, hsp3⟩ :=
            ih _ _ _ _ _ _ hrec p hp2
          refine ⟨htoId, hrate, sp',
            (B.2.2.1.toList.map UWrite.prep ++
              [UWrite.split ⟨sid, eid, participant.participantId, npid, eCu, rate, eca,
                npid == participant.participantId,
                (computeSplitAmounts share tCu rate).1,
                (computeSplitAmounts share tCu rate).2, B.1, B.2.1⟩]) ++ w1', w2', ?_,
            hsp1, hsp2, hsp3⟩
          rw [← hws, hws']
          simp

theorem processShares_split_pids (parts : List Participant) (tCu eCu : String) (rate : ℚ)
    (eid eca npid : ℕ) (oldSettled : List (ℕ × ℚ)) :
    ∀ (shares : List ShareIn) (sid prid clk : ℕ)
      (sps : List Split) (preps : List Prepayment) (ws : List UWrite),
      processShares parts tCu eCu rate eid eca npid oldSettled sid prid clk shares
        = some (sps, preps, ws) →
      ∀ sp ∈ sps, sp.participantId ∈ shares.map (fun sh => sh.participantId) := by
  intro shares
  induction shares with
  | nil =>
    intro sid prid clk sps preps ws h sp hsp
    simp only [processShares, Option.some.injEq, Prod.mk.injEq] at h
    rw [← h.1] at hsp
    cases hsp
  | cons share rest ih =>
    intro sid prid clk sps preps ws h sp hsp
    simp only [processShares] at h
    cases hfind : parts.find? (fun q => q.participantId == share.participantId) with
    | none =>
      simp only [hfind] at h
      exact Option.noConfusion h
    | some participant =>
      simp only [hfind] at h
      have hpid : participant.participantId = share.participantId := by
        have := List.find?_some hfind
        exact eq_of_beq this
      set B := shareBranch eCu npid participant.participantId prid clk
        (npid == participant.participantId)
        (lookupD oldSettled participant.participantId)
        (computeSplitAmounts share tCu rate).1
        (computeSplitAmounts share tCu rate).2 with hB
      cases hrec : processShares parts tCu eCu rate eid eca npid oldSettled (sid + 1)
          B.2.2.2.1 B.2.2.2.2 rest with
      | none =>
        rw [hrec] at h
        cases h
      | some r =>
        rw [hrec] at h
        simp only [Option.some.injEq, Prod.mk.injEq] at h
        obtain ⟨hsps, hpreps, hws⟩ := h
        rw [← hsps] at hsp
        rcases List.mem_cons.mp hsp with he | hm
        · rw [List.map_cons, List.mem_cons]
          left
          rw [he]
          exact hpid
        · rw [List.map_cons, List.mem_cons]
          right
          exact ih _ _ _ _ _ _ hrec sp hm

theorem processShares_overpaid (parts : List Participant) (tCu eCu : String) (rate : ℚ)
    (eid eca npid : ℕ) (oldSettled : List (ℕ × ℚ)) :
    ∀ (shares : List ShareIn) (sid prid clk : ℕ)
      (sps : List Split) (preps : List Prepayment) (ws : List UWrite) (share : ShareIn),
      processShares parts tCu eCu rate eid eca npid oldSettled sid prid clk shares
        = some (sps, preps, ws) →
      (shares.map (fun sh => sh.participantId)).Nodup →
      share ∈ shares →
      share.participantId ≠ npid →
      (computeSplitAmounts share tCu rate).1 < lookupD oldSettled share.participantId →
      (∃ p ∈ preps, p.fromId = share.participantId ∧ p.toId = npid ∧
         p.amount = lookupD oldSettled share.participantId
           - (computeSplitAmounts share tCu rate).1 ∧
         p.currency = eCu) ∧
      (∀ sp ∈ sps, sp.participantId = share.participantId →
        sp.leftCost = 0 ∧ sp.leftTrip = 0) := by
  intro shares
  induction shares with
  | nil =>
    intro sid prid clk sps preps ws share h hnd hmem
    cases hmem
  | cons sh0 rest ih =>
    intro sid prid clk sps preps ws share h hnd hmem hne hlt
    simp only [processShares] at h
    cases hfind : parts.find? (fun q => q.participantId == sh0.participantId) with
    | none =>
      simp only [hfind] at h
      exact Option.noConfusion h
    | some participant =>
      simp only [hfind] at h
      have hpid : participant.participantId = sh0.participantId := by
        have := List.find?_some hfind
        exact eq_of_beq this
      set B := shareBranch eCu npid participant.participantId prid clk
        (npid == participant.participantId)
        (lookupD oldSettled participant.participantId)
        (computeSplitAmounts sh0 tCu rate).1
        (computeSplitAmounts sh0 tCu rate).2 with hB
      cases hrec : processShares parts tCu eCu rate eid eca npid oldSettled (sid + 1)
          B.2.2.2.1 B.2.2.2.2 rest with
      | none =>
        rw [hrec] at h
        cases h
      | some r =>
        rw [hrec] at h
        simp only [Option.some.injEq, Prod.mk.injEq] at h
        obtain ⟨hsps, hpreps, hws⟩ := h
        rw [List.map_cons, List.nodup_cons] at hnd
        rcases List.mem_cons.mp hmem with heq | hmemr
        · subst heq
          have hsettle : (npid == participant.participantId) = false := by
            rw [hpid]
            exact beq_false_of_ne (fun he => hne he.symm)
          have hbr : B = shareBranch eCu npid participant.participantId prid clk false
              (lookupD oldSettled participant.participantId)
              (computeSplitAmounts share tCu rate).1
              (computeSplitAmounts share tCu rate).2 := by
            rw [hB, hsettle]
          have hltB : (computeSplitAmounts share tCu rate).1
              < lookupD oldSettled participant.participantId := by
            rw [hpid]
            exact hlt
          have hBval : B = (0, 0,
              some ⟨prid, participant.participantId, npid,
                lookupD oldSettled participant.participantId
                  - (computeSplitAmounts share tCu rate).1,
                lookupD oldSettled participant.participantId
                  - (computeSplitAmounts share tCu rate).1, eCu, 1, clk⟩,
              prid + 1, clk + 1) := by
            rw [hbr]
            simp only [shareBranch, Bool.false_eq_true, if_false, if_pos hltB]
          constructor
          · refine ⟨⟨prid, participant.participantId, npid,
              lookupD oldSettled participant.participantId
                - (computeSplitAmounts share tCu rate).1,
              lookupD oldSettled participant.participantId
                - (computeSplitAmounts share tCu rate).1, eCu, 1, clk⟩, ?_, hpid, rfl, ?_, rfl⟩
            · rw [← hpreps, hBval]
              simp [Option.toList]
            · rw [hpid]
          · intro sp hsp hspid
            rw [← hsps] at hsp
            rcases List.mem_cons.mp hsp with he | hm
            · rw [he]
              constructor
              · show B.1 = 0
                rw [hBval]
              · show B.2.1 = 0
                rw [hBval]
            · have := processShares_split_pids parts tCu eCu rate eid eca npid oldSettled
                rest _ _ _ _ _ _ hrec sp hm
              rw [hspid, ← hpid] at this
              rw [hpid] at this
              exact absurd this hnd.1
        · have hne0 : sh0.participantId ≠ share.participantId := by
            intro he
            exact hnd.1 (he ▸ List.mem_map_of_mem (fun sh => sh.participantId) hmemr)
          obtain ⟨hex, hall⟩ := ih _ _ _ _ _ _ share hrec hnd.2 hmemr hne hlt
          constructor
          · obtain ⟨p, hp, hpf⟩ := hex
            refine ⟨p, ?_, hpf⟩
            rw [← hpreps]
            exact List.mem_append_right _ hp
          · intro sp hsp hspid
            rw [← hsps] at hsp
            rcases List.mem_cons.mp hsp with he | hm
            · exfalso
              have : sp.participantId = participant.participantId := by
                rw [he]
              rw [hspid, hpid] at this
              exact hne0 this.symm
            · exact hall sp hm hspid

/-! ## Claim theorems -/

unseal Rat.add Rat.sub Rat.mul Rat.inv in
/-- C1: after add_expense creates the non-self split of dataC1b (bob owes
ann 10 USD) while an opposing unsettled trip-currency split (ann owes bob
10 USD) exists, the claim requires cross-settlement to decrement both sides
by the minimum so at least one remainder reaches zero; the code's
add_expense pipeline never invokes cross_settle_split, and both opposing
splits keep their full 10 USD remainders (the defined-but-never-called
cross_settle_split would have zeroed both). -/
theorem addExpense_omits_cross_settlement :
    (chainC1.map (fun s => s.splits)) = some [sOldC1, sNewC1] ∧
    sOldC1.leftTrip = 10 ∧ sNewC1.leftTrip = 10 ∧
    crossMatches sNewC1.payerId sNewC1.participantId "USD" "USD" sOldC1 = true ∧
    (crossSettleSplit "USD" sNewC1 [sOldC1]).1.leftTrip = 0 ∧
    (crossSettleSplit "USD" sNewC1 [sOldC1]).2.map (fun t => t.leftTrip) = [0] := by
  decide

unseal Rat.add Rat.sub Rat.mul Rat.inv in
/-- C2: a reachable ledger state (a 0.10 EUR expense owed by bob, then a
0.095 USD prepayment, then a 1.00 EUR prepayment, all through the public
operations) drives a split's left_to_settlement_amount_in_cost_currency to
-1.00: the foreign-currency branch of apply_prepayment_to_splits subtracts
min_positive(amount_left, left_cost) from left_cost without clamping, and
min_positive ignores the non-positive left_cost, so the negative-remainder
invariant claimed here is violated by the code. -/
theorem reconciliation_reaches_negative_remainder :
    (negRemainderChain.map (fun s => s.splits.map (fun sp => sp.leftCost)))
      = some [(-1 : ℚ)] ∧ (-1 : ℚ) < 0 := by
  decide

/-- C8: recalculate_settlements is idempotent: it reads only the splits and
prepayments, which it never modifies, and fully replaces both summary
tables, so a second run with no intervening mutation reproduces exactly the
same SettlementTripCurrency and SettlementOtherCurrency row sets. -/
theorem recalcSettlements_idempotent (st : TripState) :
    (recalcSettlements (recalcSettlements st)).settTrip = (recalcSettlements st).settTrip ∧
    (recalcSettlements (recalcSettlements st)).settOther = (recalcSettlements st).settOther :=
  ⟨rfl, rfl⟩

/-- C10: a split whose trip-currency remainder is already ≤ 0 makes
apply_prepayments_to_split return immediately, leaving the split (amounts
and is_settlement flag) and every prepayment unchanged; and the candidate
query of apply_prepayment_to_splits only ever selects splits with a
positive trip remainder (and is_settlement false), so a split with zero
trip remainder but positive cost remainder is never drained. -/
theorem zero_trip_remainder_untouched :
    (∀ (tripCur : String) (s : Split) (preps : List Prepayment),
      s.leftTrip ≤ 0 → applyPrepaymentsToSplit tripCur s preps = (s, preps)) ∧
    (∀ (fromId toId : ℕ) (tripCurU prepCurU : String) (splits : List Split) (s : Split),
      s ∈ prepCandidates fromId toId tripCurU prepCurU splits →
      0 < s.leftTrip ∧ s.isSettlement = false) := by
  constructor
  · intro tripCur s preps h
    unfold applyPrepaymentsToSplit
    rw [if_pos h]
  · intro fromId toId tripCurU prepCurU splits s hmem
    unfold prepCandidates at hmem
    rw [mem_sortByKey] at hmem
    have hmatch := List.of_mem_filter hmem
    simp only [splitCandMatches, Bool.and_eq_true, decide_eq_true_eq, beq_iff_eq] at hmatch
    exact ⟨hmatch.1.2, hmatch.1.1.2⟩

/-- C10 witness: the early return on a concrete zero-trip-remainder split
with a matching prepayment, and the candidate positivity on a concrete
candidate. -/
theorem zero_trip_remainder_untouched_wit :
    applyPrepaymentsToSplit "USD" w10s [w10p] = (w10s, [w10p]) ∧
    (0 < w10s2.leftTrip ∧ w10s2.isSettlement = false) :=
  ⟨zero_trip_remainder_untouched.1 "USD" w10s [w10p] (by decide),
   zero_trip_remainder_untouched.2 2 1 "USD" "USD" [w10s2] w10s2 (by decide)⟩

unseal Rat.add Rat.sub Rat.mul Rat.inv in
/-- C3 counterexample: a batch whose first item is valid and whose second
names a missing expense makes settle_by_costs fail, yet the ledger state
after the failed call differs from the state before it — the first item's
split has already been zeroed — refuting the claimed atomicity. -/
theorem settleByCosts_not_atomic_cex :
    (settleByCosts stC3 11 itemsC3).2 = false ∧
    stC3fail ≠ stC3 ∧
    stC3fail.splits.map (fun s => s.leftTrip) = [0] ∧
    stC3.splits.map (fun s => s.leftTrip) = [10] := by
  decide

/-- C3 amended: settle_by_costs is not atomic on failure: when the batch
fails on an item, the items preceding the first failing item remain applied
(their splits zeroed and saved) in the returned state, the failing item and
all later items are not applied, and no settlement rebuild runs; only the
failures before any item is processed (empty batch, caller not a
participant) leave the state unchanged. -/
theorem settleByCosts_keeps_preceding_items :
    ∀ (st : TripState) (u : ℕ) (items : List CostItem) (st' : TripState),
      settleByCosts st u items = (st', false) →
      (items.isEmpty = true ∧ st' = st) ∨
      (st.participants.find? (fun p => p.userId == some u) = none ∧ st' = st) ∨
      (∃ caller, st.participants.find? (fun p => p.userId == some u) = some caller ∧
        ∃ pre it rest, items = pre ++ it :: rest ∧
          settleByCostsLoop caller.participantId st pre = (st', true) ∧
          itemCheck st' caller.participantId it = false) := by
  intro st u items st' h
  unfold settleByCosts at h
  by_cases he : items.isEmpty
  · rw [if_pos he] at h
    exact Or.inl ⟨he, (congrArg Prod.fst h).symm⟩
  · rw [if_neg he] at h
    cases hf : st.participants.find? (fun p => p.userId == some u) with
    | none =>
      simp only [hf] at h
      exact Or.inr (Or.inl ⟨rfl, (congrArg Prod.fst h).symm⟩)
    | some caller =>
      simp only [hf] at h
      refine Or.inr (Or.inr ⟨caller, rfl, ?_⟩)
      by_cases hok : (settleByCostsLoop caller.participantId st items).2
      · rw [if_pos hok] at h
        exact absurd (congrArg Prod.snd h) (by simp)
      · rw [if_neg hok] at h
        exact settleByCostsLoop_false_shape caller.participantId items st st' h

unseal Rat.add Rat.sub Rat.mul Rat.inv in
/-- C3 witness: the amended statement instantiated on the concrete failing
batch, where the first item was applied and the second (missing expense)
failed. -/
theorem settleByCosts_keeps_preceding_items_wit :
    (itemsC3.isEmpty = true ∧ stC3fail = stC3) ∨
    (stC3.participants.find? (fun p => p.userId == some 11) = none ∧ stC3fail = stC3) ∨
    (∃ caller, stC3.participants.find? (fun p => p.userId == some 11) = some caller ∧
      ∃ pre it rest, itemsC3 = pre ++ it :: rest ∧
        settleByCostsLoop caller.participantId stC3 pre = (stC3fail, true) ∧
        itemCheck stC3fail caller.participantId it = false) :=
  settleByCosts_keeps_preceding_items stC3 11 itemsC3 stC3fail (by decide)

unseal Rat.add Rat.sub Rat.mul Rat.inv in
/-- C4 counterexample: updating stC4's expense with a payer change from ann
(1) to bob (2) creates a refund Prepayment directed to participant 2 — the
new payer — although the payer before the update was participant 1, so the
claim that such Prepayments are directed to the old payer is false. -/
theorem updateExpense_refund_to_new_payer_cex :
    ((updateExpense stC4 11 dataC4).map
      (fun s => s.prepayments.map (fun p => (p.fromId, p.toId)))) = some [(3, 2)] ∧
    stC4.expenses.map (fun e => e.payerId) = [1] ∧ dataC4.payerId = 2 ∧ (2 : ℕ) ≠ 1 := by
  decide

/-- C4 amended: when update_expense changes the expense's payer, every
Prepayment its share loop creates for a participant's previously-settled
amount is directed to the new payer (the payer after the update), and each
such Prepayment is created immediately before that participant's new
zero-remainder Split in the write sequence. -/
theorem updateExpense_refunds_target_new_payer :
    ∀ (parts : List Participant) (tCu eCu : String) (rate : ℚ)
      (eid eca npid : ℕ) (oldSettled : List (ℕ × ℚ)) (shares : List ShareIn)
      (sid prid clk : ℕ) (sps : List Split) (preps : List Prepayment) (ws : List UWrite),
      processShares parts tCu eCu rate eid eca npid oldSettled sid prid clk shares
        = some (sps, preps, ws) →
      ∀ p ∈ preps, p.toId = npid ∧
        ∃ sp w1 w2, ws = w1 ++ UWrite.prep p :: UWrite.split sp :: w2 ∧
          sp.participantId = p.fromId ∧ sp.leftCost = 0 ∧ sp.leftTrip = 0 := by
  intro parts tCu eCu rate eid eca npid oldSettled shares sid prid clk sps preps ws h p hp
  obtain ⟨h1, -, h3⟩ := processShares_prep_mem parts tCu eCu rate eid eca npid oldSettled
    shares sid prid clk sps preps ws h p hp
  exact ⟨h1, h3⟩

unseal Rat.add Rat.sub Rat.mul Rat.inv in
/-- C4 witness: the amended statement instantiated on the concrete stC4
update: the refund prepayment targets the new payer 2 and precedes carol's
new split in the write sequence. -/
theorem updateExpense_refunds_target_new_payer_wit :
    wPrepC4.toId = 2 ∧
    ∃ sp w1 w2, psResC4.2.2 = w1 ++ UWrite.prep wPrepC4 :: UWrite.split sp :: w2 ∧
      sp.participantId = wPrepC4.fromId ∧ sp.leftCost = 0 ∧ sp.leftTrip = 0 :=
  updateExpense_refunds_target_new_payer stC4.participants "USD" "USD" 1 1 1 2 [(3, 10)]
    dataC4.sharedWith 2 1 5 psResC4.1 psResC4.2.1 psResC4.2.2 (by decide) wPrepC4 (by decide)

/-- C5: when an update_expense share reduces a participant's amount below
the cost-currency amount that participant had already settled on the old
split, the share loop creates a Prepayment from that participant to the
payer for exactly the settled amount minus the new share amount,
denominated in the expense's currency, and that participant's new split has
both left_to_settlement fields equal to zero. -/
theorem updateExpense_overpayment_creates_refund :
    ∀ (parts : List Participant) (tCu eCu : String) (rate : ℚ)
      (eid eca npid : ℕ) (oldSettled : List (ℕ × ℚ)) (shares : List ShareIn)
      (sid prid clk : ℕ) (sps : List Split) (preps : List Prepayment) (ws : List UWrite)
      (share : ShareIn),
      processShares parts tCu eCu rate eid eca npid oldSettled sid prid clk shares
        = some (sps, preps, ws) →
      (shares.map (fun sh => sh.participantId)).Nodup →
      share ∈ shares →
      share.participantId ≠ npid →
      (computeSplitAmounts share tCu rate).1 < lookupD oldSettled share.participantId →
      (∃ p ∈ preps, p.fromId = share.participantId ∧ p.toId = npid ∧
         p.amount = lookupD oldSettled share.participantId
           - (computeSplitAmounts share tCu rate).1 ∧
         p.currency = eCu) ∧
      (∀ sp ∈ sps, sp.participantId = share.participantId →
        sp.leftCost = 0 ∧ sp.leftTrip = 0) := by
  intro parts tCu eCu rate eid eca npid oldSettled shares sid prid clk sps preps ws share
    h hnd hmem hne hlt
  exact processShares_overpaid parts tCu eCu rate eid eca npid oldSettled shares
    sid prid clk sps preps ws share h hnd hmem hne hlt

unseal Rat.add Rat.sub Rat.mul Rat.inv in
/-- C5 witness: the statement instantiated on the concrete stC4 update,
where carol settled 10 USD and the share shrinks to 5 USD. -/
theorem updateExpense_overpayment_creates_refund_wit :
    (∃ p ∈ psResC4.2.1, p.fromId = shareC4.participantId ∧ p.toId = 2 ∧
       p.amount = lookupD [((3 : ℕ), (10 : ℚ))] shareC4.participantId
         - (computeSplitAmounts shareC4 "USD" 1).1 ∧
       p.currency = "USD") ∧
    (∀ sp ∈ psResC4.1, sp.participantId = shareC4.participantId →
      sp.leftCost = 0 ∧ sp.leftTrip = 0) :=
  updateExpense_overpayment_creates_refund stC4.participants "USD" "USD" 1 1 1 2
    [(3, 10)] dataC4.sharedWith 2 1 5 psResC4.1 psResC4.2.1 psResC4.2.2 shareC4
    (by decide) (by decide) (by decide) (by decide) (by decide)

/-- C7: with two matching trip-currency prepayments ordered oldest-first
and one unsettled split, apply_prepayments_to_split consumes the older
prepayment first: the first application step decreases the split's trip
remainder by min(P1.amount_left, S.left_trip) and leaves P1 with exactly
its balance minus that minimum, and the newer prepayment's balance can only
change after P1 has been drained to zero. -/
theorem applyPrepayments_fifo (tripCur : String) (s : Split) (p1 p2 : Prepayment)
    (h1c : upperStr p1.currency = upperStr tripCur)
    (h2c : upperStr p2.currency = upperStr tripCur)
    (h1m : prepMatches s p1 = true) (h2m : prepMatches s p2 = true)
    (hlt : 0 < s.leftTrip) :
    ∃ p1' p2', (applyPrepaymentsToSplit tripCur s [p1, p2]).2 = [p1', p2'] ∧
      p1'.amountLeft = p1.amountLeft - min p1.amountLeft s.leftTrip ∧
      (applyPrepStep (upperStr tripCur) s p1).1.leftTrip
        = s.leftTrip - min p1.amountLeft s.leftTrip ∧
      (p2'.amountLeft ≠ p2.amountLeft → p1'.amountLeft = 0) := by
  have h1p : 0 < p1.amountLeft := by
    simp only [prepMatches, Bool.and_eq_true, decide_eq_true_eq] at h1m
    exact h1m.2
  have h2p : 0 < p2.amountLeft := by
    simp only [prepMatches, Bool.and_eq_true, decide_eq_true_eq] at h2m
    exact h2m.2
  have hns : ¬ s.leftTrip ≤ 0 := not_le.mpr hlt
  have hstep1 := applyPrepStep_trip (upperStr tripCur) s p1 h1c h1p hlt
  have hs1lt : (applyPrepStep (upperStr tripCur) s p1).1.leftTrip
      = s.leftTrip - min p1.amountLeft s.leftTrip := by
    rw [hstep1]
  have hq1al : (applyPrepStep (upperStr tripCur) s p1).2.amountLeft
      = p1.amountLeft - min p1.amountLeft s.leftTrip := by
    rw [hstep1]
  have h2m' : prepMatches (applyPrepStep (upperStr tripCur) s p1).1 p2 = true := by
    rw [hstep1]
    exact h2m
  unfold applyPrepaymentsToSplit
  rw [if_neg hns]
  rw [applyPrepsGo_cons_matched (upperStr tripCur) s p1 [p2] h1m hns]
  by_cases hbr : (applyPrepStep (upperStr tripCur) s p1).1.leftTrip ≤ 0
  · rw [applyPrepsGo_cons_break (upperStr tripCur) _ p2 [] h2m' hbr]
    exact ⟨(applyPrepStep (upperStr tripCur) s p1).2, p2, rfl, hq1al, hs1lt,
      fun hne => absurd rfl hne⟩
  · rw [applyPrepsGo_cons_matched (upperStr tripCur) _ p2 [] h2m' hbr]
    refine ⟨(applyPrepStep (upperStr tripCur) s p1).2,
      (applyPrepStep (upperStr tripCur) (applyPrepStep (upperStr tripCur) s p1).1 p2).2,
      rfl, hq1al, hs1lt, ?_⟩
    intro _
    have hlt2 : min p1.amountLeft s.leftTrip < s.leftTrip := by
      have hpos := not_le.mp hbr
      rw [hs1lt] at hpos
      linarith
    rw [hq1al, min_eq_left_of_lt_right hlt2, sub_self]

/-- C7 witness: the statement instantiated on a 10 USD split and two USD
prepayments of 4 (older) and 8 (newer). -/
theorem applyPrepayments_fifo_wit :
    ∃ p1' p2', (applyPrepaymentsToSplit "USD" w7s [w7p1, w7p2]).2 = [p1', p2'] ∧
      p1'.amountLeft = w7p1.amountLeft - min w7p1.amountLeft w7s.leftTrip ∧
      (applyPrepStep (upperStr "USD") w7s w7p1).1.leftTrip
        = w7s.leftTrip - min w7p1.amountLeft w7s.leftTrip ∧
      (p2'.amountLeft ≠ w7p2.amountLeft → p1'.amountLeft = 0) :=
  applyPrepayments_fifo "USD" w7s w7p1 w7p2 (by decide) (by decide) (by decide)
    (by decide) (by decide)

/-- C9: every Prepayment created by add_prepayment, by the update_expense
overpayment refund, or by the delete_expense settled-portion refund is
stored with the model-default rate 1 (none of those creation sites passes a
rate), and recalculate_settlements consequently values such a prepayment's
remaining credit in the trip-currency graph as amount_left * 1 (quantized),
whatever its currency. -/
theorem created_prepayments_rate_one :
    (∀ (st : TripState) (u pid : ℕ) (am : ℚ) (cur dir : String)
       (st' : TripState) (p : Prepayment),
      addPrepayment st u pid am cur dir = some (st', p) → p.rate = 1) ∧
    (∀ (parts : List Participant) (tCu eCu : String) (rate : ℚ)
       (eid eca npid : ℕ) (oldSettled : List (ℕ × ℚ)) (shares : List ShareIn)
       (sid prid clk : ℕ) (sps : List Split) (preps : List Prepayment) (ws : List UWrite),
      processShares parts tCu eCu rate eid eca npid oldSettled sid prid clk shares
        = some (sps, preps, ws) → ∀ p ∈ preps, p.rate = 1) ∧
    (∀ (eCu : String) (payerId : ℕ) (splits : List Split) (prid clk : ℕ)
       (p : Prepayment),
      p ∈ deleteExpenseRefunds eCu payerId prid clk splits → p.rate = 1) ∧
    (∀ p : Prepayment, p.rate = 1 → prepTripContribution p = q2 (p.amountLeft * 1)) := by
  refine ⟨?_, ?_, ?_, ?_⟩
  · intro st u pid am cur dir st' p h
    simp only [addPrepayment] at h
    by_cases h1 : am ≤ 0
    · rw [if_pos h1] at h
      exact Option.noConfusion h
    · rw [if_neg h1] at h
      by_cases h2 : upperStr (trimStr cur) = ""
      · rw [if_pos h2] at h
        exact Option.noConfusion h
      · rw [if_neg h2] at h
        by_cases h3 : ¬ (upperStr (trimStr dir) = "TO_ME" ∨ upperStr (trimStr dir) = "FROM_ME")
        · rw [if_pos h3] at h
          exact Option.noConfusion h
        · rw [if_neg h3] at h
          cases hme : st.participants.find? (fun q => q.userId == some u) with
          | none =>
            simp only [hme] at h
            exact Option.noConfusion h
          | some me =>
            simp only [hme] at h
            cases hother : st.participants.find? (fun q => q.participantId == pid) with
            | none =>
              simp only [hother] at h
              exact Option.noConfusion h
            | some other =>
              simp only [hother] at h
              by_cases h4 : me.participantId = other.participantId
              · rw [if_pos h4] at h
                exact Option.noConfusion h
              · rw [if_neg h4] at h
                by_cases h5 : upperStr (trimStr cur) ≠ upperStr st.tripCurrency ∧
                    ¬ (st.participants ≠ [] ∧
                      st.expenses.any (fun e => upperStr e.currency == upperStr (trimStr cur)))
                · rw [if_pos h5] at h
                  exact Option.noConfusion h
                · rw [if_neg h5] at h
                  simp only [Option.some.injEq, Prod.mk.injEq] at h
                  rw [← h.2, applyPrepaymentToSplits_rate]
  · intro parts tCu eCu rate eid eca npid oldSettled shares sid prid clk sps preps ws h p hp
    exact (processShares_prep_mem parts tCu eCu rate eid eca npid oldSettled shares
      sid prid clk sps preps ws h p hp).2.1
  · intro eCu payerId splits
    induction splits with
    | nil =>
      intro prid clk p hp
      cases hp
    | cons sh rest ih =>
      intro prid clk p hp
      simp only [deleteExpenseRefunds] at hp
      by_cases hs : sh.isSettlement
      · rw [if_pos hs] at hp
        exact ih prid clk p hp
      · rw [if_neg hs] at hp
        by_cases hpos : 0 < sh.amountCost - sh.leftCost
        · rw [if_pos hpos] at hp
          rcases List.mem_cons.mp hp with he | hm
          · rw [he]
          · exact ih (prid + 1) (clk + 1) p hm
        · rw [if_neg hpos] at hp
          exact ih prid clk p hp
  · intro p h
    unfold prepTripContribution
    rw [h]

unseal Rat.add Rat.sub Rat.mul Rat.inv in
/-- C9 witness: the four parts instantiated on the concrete add_prepayment
result, the stC4 update refund, and a delete_expense refund for a split
with 4 USD settled. -/
theorem created_prepayments_rate_one_wit :
    addPrepResult.2.rate = 1 ∧ wPrepC4.rate = 1 ∧ wPrepDel.rate = 1 ∧
    prepTripContribution wPrepDel = q2 (wPrepDel.amountLeft * 1) :=
  ⟨created_prepayments_rate_one.1 stBase 11 2 5 "USD" "FROM_ME"
      addPrepResult.1 addPrepResult.2 (by decide),
   created_prepayments_rate_one.2.1 stC4.participants "USD" "USD" 1 1 1 2 [(3, 10)]
      dataC4.sharedWith 2 1 5 psResC4.1 psResC4.2.1 psResC4.2.2 (by decide)
      wPrepC4 (by decide),
   created_prepayments_rate_one.2.2.1 "USD" 1 [wSplitDel] 1 0 wPrepDel (by decide),
   created_prepayments_rate_one.2.2.2 wPrepDel (by decide)⟩

theorem netted_pair_cases {K : Type} [DecidableEq K] (rev : K → K)
    (hrev : ∀ x, rev (rev x) = x) (debts : List (K × ℚ)) (hnd : (keysOf debts).Nodup)
    (k : K) (hkk : rev k ≠ k)
    (hc1 : isCent (lookupD debts k)) (hc2 : isCent (lookupD debts (rev k)))
    (hmem : k ∈ keysOf debts ∨ rev k ∈ keysOf debts) :
    (lookupD debts (rev k) < lookupD debts k →
      filterKey (netDebts rev debts) k
        = [(k, |lookupD debts k - lookupD debts (rev k)|)] ∧
      filterKey (netDebts rev debts) (rev k) = []) ∧
    (lookupD debts k = lookupD debts (rev k) →
      filterKey (netDebts rev debts) k = [] ∧
      filterKey (netDebts rev debts) (rev k) = []) := by
  have hkk2 : rev (rev k) ≠ rev k := by
    rw [hrev]
    exact fun he => hkk he.symm
  have E1 := netDebts_pair rev hrev debts hnd k hkk
  have E2 := netDebts_pair rev hrev debts hnd (rev k) hkk2
  rw [hrev] at E2
  constructor
  · intro hlt
    constructor
    · rw [E1, if_pos ⟨hmem, hlt⟩, q2_isCent _ (isCent_sub _ _ hc1 hc2),
        abs_of_pos (sub_pos.mpr hlt)]
    · rw [E2, if_neg]
      rintro ⟨-, hlt2⟩
      exact absurd hlt2 (not_lt.mpr (le_of_lt hlt))
  · intro heq
    constructor
    · rw [E1, if_neg]
      rintro ⟨-, hlt2⟩
      rw [heq] at hlt2
      exact lt_irrefl _ hlt2
    · rw [E2, if_neg]
      rintro ⟨-, hlt2⟩
      rw [heq] at hlt2
      exact lt_irrefl _ hlt2

/-- C6: after recalculate_settlements, for every unordered participant pair
with aggregate directed amounts in the same currency graph (the
trip-currency graph, or one currency bucket of the other-currency graph,
both aggregates being whole-cent amounts as every monetary column is), the
persisted summary holds exactly one directed edge of magnitude
|A→B − B→A| pointing from the side owing more, and no edge at all when the
two aggregates are equal. -/
theorem recalc_nets_one_edge_per_pair (st : TripState) :
    (∀ a b : ℕ, a ≠ b →
      isCent (lookupD (debtsOf st).1 (a, b)) →
      isCent (lookupD (debtsOf st).1 (b, a)) →
      ((a, b) ∈ keysOf (debtsOf st).1 ∨ (b, a) ∈ keysOf (debtsOf st).1) →
      (lookupD (debtsOf st).1 (b, a) < lookupD (debtsOf st).1 (a, b) →
        filterKey (recalcSettlements st).settTrip (a, b)
          = [((a, b), |lookupD (debtsOf st).1 (a, b) - lookupD (debtsOf st).1 (b, a)|)] ∧
        filterKey (recalcSettlements st).settTrip (b, a) = []) ∧
      (lookupD (debtsOf st).1 (a, b) < lookupD (debtsOf st).1 (b, a) →
        filterKey (recalcSettlements st).settTrip (b, a)
          = [((b, a), |lookupD (debtsOf st).1 (a, b) - lookupD (debtsOf st).1 (b, a)|)] ∧
        filterKey (recalcSettlements st).settTrip (a, b) = []) ∧
      (lookupD (debtsOf st).1 (a, b) = lookupD (debtsOf st).1 (b, a) →
        filterKey (recalcSettlements st).settTrip (a, b) = [] ∧
        filterKey (recalcSettlements st).settTrip (b, a) = [])) ∧
    (∀ (a b : ℕ) (c : String), a ≠ b →
      isCent (lookupD (debtsOf st).2 (a, b, c)) →
      isCent (lookupD (debtsOf st).2 (b, a, c)) →
      ((a, b, c) ∈ keysOf (debtsOf st).2 ∨ (b, a, c) ∈ keysOf (debtsOf st).2) →
      (lookupD (debtsOf st).2 (b, a, c) < lookupD (debtsOf st).2 (a, b, c) →
        filterKey (recalcSettlements st).settOther (a, b, c)
          = [((a, b, c),
              |lookupD (debtsOf st).2 (a, b, c) - lookupD (debtsOf st).2 (b, a, c)|)] ∧
        filterKey (recalcSettlements st).settOther (b, a, c) = []) ∧
      (lookupD (debtsOf st).2 (a, b, c) < lookupD (debtsOf st).2 (b, a, c) →
        filterKey (recalcSettlements st).settOther (b, a, c)
          = [((b, a, c),
              |lookupD (debtsOf st).2 (a, b, c) - lookupD (debtsOf st).2 (b, a, c)|)] ∧
        filterKey (recalcSettlements st).settOther (a, b, c) = []) ∧
      (lookupD (debtsOf st).2 (a, b, c) = lookupD (debtsOf st).2 (b, a, c) →
        filterKey (recalcSettlements st).settOther (a, b, c) = [] ∧
        filterKey (recalcSettlements st).settOther (b, a, c) = [])) := by
  have hrevp : ∀ x : ℕ × ℕ, revPair (revPair x) = x := fun x => rfl
  have hrevt : ∀ x : ℕ × ℕ × String, revTriple (revTriple x) = x := fun x => rfl
  constructor
  · intro a b hab hc1 hc2 hmem
    have hkk : revPair (a, b) ≠ (a, b) := by
      simp only [revPair, ne_eq, Prod.mk.injEq]
      rintro ⟨-, h2⟩
      exact hab h2
    have hkk' : revPair (b, a) ≠ (b, a) := by
      simp only [revPair, ne_eq, Prod.mk.injEq]
      rintro ⟨h1, -⟩
      exact hab h1
    have H1 := netted_pair_cases revPair hrevp (debtsOf st).1 (debtsOf_nodup st).1
      (a, b) hkk hc1 hc2 hmem
    have H2 := netted_pair_cases revPair hrevp (debtsOf st).1 (debtsOf_nodup st).1
      (b, a) hkk' hc2 hc1 (Or.symm hmem)
    refine ⟨H1.1, ?_, H1.2⟩
    intro hlt
    have h2 := H2.1 hlt
    rw [abs_sub_comm] at h2
    exact h2
  · intro a b c hab hc1 hc2 hmem
    have hkk : revTriple (a, b, c) ≠ (a, b, c) := by
      simp only [revTriple, ne_eq, Prod.mk.injEq]
      rintro ⟨-, h2, -⟩
      exact hab h2
    have hkk' : revTriple (b, a, c) ≠ (b, a, c) := by
      simp only [revTriple, ne_eq, Prod.mk.injEq]
      rintro ⟨h1, -⟩
      exact hab h1
    have H1 := netted_pair_cases revTriple hrevt (debtsOf st).2 (debtsOf_nodup st).2
      (a, b, c) hkk hc1 hc2 hmem
    have H2 := netted_pair_cases revTriple hrevt (debtsOf st).2 (debtsOf_nodup st).2
      (b, a, c) hkk' hc2 hc1 (Or.symm hmem)
    refine ⟨H1.1, ?_, H1.2⟩
    intro hlt
    have h2 := H2.1 hlt
    rw [abs_sub_comm] at h2
    exact h2

unseal Rat.add Rat.sub Rat.mul Rat.inv in
/-- C6 witness: the statement instantiated on stC6 (bob owes ann 30 USD):
the trip graph and the USD bucket of the other-currency graph each hold
exactly the edge (2, 1) of magnitude 30 and no reverse edge. -/
theorem recalc_nets_one_edge_per_pair_wit :
    (filterKey (recalcSettlements stC6).settTrip (2, 1)
      = [((2, 1), |lookupD (debtsOf stC6).1 (2, 1) - lookupD (debtsOf stC6).1 (1, 2)|)] ∧
     filterKey (recalcSettlements stC6).settTrip (1, 2) = []) ∧
    (filterKey (recalcSettlements stC6).settOther (2, 1, "USD")
      = [((2, 1, "USD"),
          |lookupD (debtsOf stC6).2 (2, 1, "USD") - lookupD (debtsOf stC6).2 (1, 2, "USD")|)] ∧
     filterKey (recalcSettlements stC6).settOther (1, 2, "USD") = []) :=
  ⟨((recalc_nets_one_edge_per_pair stC6).1 2 1 (by decide)
      ⟨3000, by decide⟩ ⟨0, by decide⟩ (by decide)).1 (by decide),
   ((recalc_nets_one_edge_per_pair stC6).2 2 1 "USD" (by decide)
      ⟨3000, by decide⟩ ⟨0, by decide⟩ (by decide)).1 (by decide)⟩
